import Mathlib

/-!
Verification of the bulk-change price-discount scheduler.

The embedding models the Express app of `src/unnamed/part_001` (the full
variant with anchor-price discount stacking, `originalCompareAt`, and the
`/api/end-all` endpoint):

* decimal price strings ("80.50") are represented as a sign, a magnitude
  mantissa and a count of decimal digits (`DecStr`), so that string-level
  distinctions such as "80.5" versus "80.50" — and the signed zero
  "-0.00" versus "0.00" — are preserved;
* JS number arithmetic is idealised as exact rational arithmetic;
  `Number.prototype.toFixed(2)` follows the ECMAScript definition: the
  sign is extracted first and the magnitude is rounded to the closest
  hundredth, ties picking the larger candidate integer, so inputs in
  (-0.005, 0) render as "-0.00";
* the external price store (Shopify variants) is a map from variant id to
  its current price and optional compare-at price; a JSON PUT body is
  modelled with an explicit `omitted / null / value` distinction so that
  "explicitly cleared" is expressible;
* per-job failures (fetch rejection, non-2xx response, record-save
  failure) are injected through a fault oracle.
-/

namespace BulkChange

/-- A decimal string such as "80.50": an optional leading minus sign
(`neg`), a magnitude mantissa `m`, and `e` digits after the decimal point,
so its numeric value is `±(m / 10 ^ e)`.  "80.5" is `⟨false, 805, 1⟩` and
"80.50" is `⟨false, 8050, 2⟩` — distinct as strings — and the signed zero
"-0.00" that JS `toFixed` can print is `⟨true, 0, 2⟩`, a different string
from "0.00" = `⟨false, 0, 2⟩` though both parse to `0`. -/
structure DecStr where
  neg : Bool
  m : Nat
  e : Nat
deriving DecidableEq

/-- `parseFloat` / `Number(...)` of a decimal string: its numeric value.
The sign of "-0.00" evaporates (`-0 = 0` in ℚ), exactly as JS numeric
comparison treats `-0`. -/
def DecStr.val (d : DecStr) : ℚ :=
  (if d.neg then -(d.m : ℚ) else (d.m : ℚ)) / (10 : ℚ) ^ d.e

/-- `x.toFixed(2)` following ECMAScript `Number.prototype.toFixed`: the
sign is extracted first (a negative input renders with a leading "-", so
inputs in (-0.005, 0) render as "-0.00"), then the magnitude is rounded to
the closest `n / 100`, ties taking the larger `n`. -/
def toFixed2 (q : ℚ) : DecStr :=
  if q < 0 then ⟨true, (⌊-q * 100 + 1/2⌋).toNat, 2⟩
  else ⟨false, (⌊q * 100 + 1/2⌋).toNat, 2⟩

/-- The job status enum of the Mongoose schema:
`enum: ['pending', 'active', 'completed']`. -/
inductive Status where
  | pending
  | active
  | completed
deriving DecidableEq

/-- Numeric rank of a status along the lifecycle. -/
def Status.rank : Status → Nat
  | .pending => 0
  | .active => 1
  | .completed => 2

/-- Forward-only ordering on statuses. -/
def statusLe (a b : Status) : Prop := a.rank ≤ b.rank

instance (a b : Status) : Decidable (statusLe a b) := by
  unfold statusLe; infer_instance

/-- One price-store (Shopify) variant: current price and optional
compare-at price, both decimal strings. -/
structure Variant where
  price : DecStr
  compare_at_price : Option DecStr
deriving DecidableEq

/-- The external price store: variant id → variant, if it exists. -/
def Catalog := String → Option Variant

/-- One scheduled discount job (the Mongoose `Job` document).
`originalPrice`/`originalCompareAt` are unset until activation;
`originalCompareAt = none` also stands for the explicit `null` that Pass A
stores when the variant had no compare-at price. -/
structure Job where
  variantId : String
  originalPrice : Option DecStr
  discountPercent : ℚ
  originalCompareAt : Option DecStr
  startTime : Int
  endTime : Int
  status : Status
deriving DecidableEq

/-- A field of the JSON PUT body: absent from the object, an explicit
`null`, or a decimal-string value.  `JSON.stringify` keeps `null` fields
and drops `undefined` ones, so the distinction is observable on the wire. -/
inductive FieldVal where
  | omitted
  | jnull
  | val (d : DecStr)
deriving DecidableEq

/-- The body of a variant PUT request: the `price` and `compare_at_price`
fields. -/
structure WriteReq where
  price : FieldVal
  compare_at_price : FieldVal
deriving DecidableEq

/-- Effect of one PUT body field on an optional stored value: `null`
clears it, an omitted field leaves it untouched. -/
def applyField (cur : Option DecStr) : FieldVal → Option DecStr
  | .omitted => cur
  | .jnull => none
  | .val d => some d

/-- Effect of a PUT body on a stored variant. -/
def applyWrite (v : Variant) (w : WriteReq) : Variant :=
  { price := match w.price with | .val d => d | _ => v.price,
    compare_at_price := applyField v.compare_at_price w.compare_at_price }

/-- Outcome of the PUT `fetch`: resolved with a 2xx response, resolved
with a non-2xx status code, or rejected (network failure, which throws). -/
inductive WriteOutcome where
  | ok
  | rejected (code : Nat)
  | netFail (msg : String)
deriving DecidableEq

/-- Fault injection for one job's external calls: a failing GET, the PUT
outcome, and a failing Mongoose `save`. -/
structure FaultSpec where
  readFault : Option String
  writeOutcome : WriteOutcome
  saveFault : Option String
deriving DecidableEq

/-- No injected faults. -/
def noFault : FaultSpec := ⟨none, WriteOutcome.ok, none⟩

/-- A fault assignment for every job processed in one request. -/
def Faults := Job → FaultSpec

/-- A healthy environment: no faults anywhere. -/
def healthy : Faults := fun _ => noFault

/-- The GET of a variant followed by `data.variant.price` access: a thrown
error if the fetch fails, and a `TypeError` if the response carries no
variant (the handlers do not check `res.ok` before dereferencing). -/
def readVariant (cat : Catalog) (f : FaultSpec) (id : String) :
    Except String Variant :=
  match f.readFault with
  | some msg => Except.error msg
  | none =>
    match cat id with
    | some v => Except.ok v
    | none => Except.error "TypeError: cannot read variant of undefined"

/-- The PUT of a variant body.  A network failure throws; otherwise the
call resolves, returning the updated catalog and `none` for a 2xx response
or `some code` for a non-2xx one (a missing variant answers 404 and
changes nothing). -/
def writeVariant (cat : Catalog) (f : FaultSpec) (id : String)
    (w : WriteReq) : Except String (Catalog × Option Nat) :=
  match f.writeOutcome with
  | .netFail msg => Except.error msg
  | .rejected code => Except.ok (cat, some code)
  | .ok =>
    match cat id with
    | none => Except.ok (cat, some 404)
    | some v =>
      Except.ok (fun k => if k = id then some (applyWrite v w) else cat k, none)

/-- Result of processing one job: the catalog afterwards, the job's stored
record afterwards, and the caught error message if the iteration failed. -/
structure JStep where
  cat : Catalog
  job : Job
  err : Option String

/-- `const currentCompare = rawCompare ? parseFloat(rawCompare) : 0`: the
numeric compare-at price, `0` when there is none (the string "0" is truthy
in JS but also parses to `0`). -/
def currentCompare (v : Variant) : ℚ :=
  match v.compare_at_price with
  | some d => d.val
  | none => 0

/-- `const anchorPrice = (currentCompare > currentPrice) ? currentCompare
: currentPrice`. -/
def anchorPrice (v : Variant) : ℚ :=
  if currentCompare v > v.price.val then currentCompare v else v.price.val

/-- `existingDiffPercent`: the pre-existing discount gap percentage,
`(anchor - current) / anchor * 100` when the anchor is positive and above
the current price, else `0`. -/
def existingDiffPercent (v : Variant) : ℚ :=
  if anchorPrice v > 0 ∧ v.price.val < anchorPrice v then
    ((anchorPrice v - v.price.val) / anchorPrice v) * 100
  else 0

/-- `const totalDiscountPercent = existingDiffPercent +
job.discountPercent` (additive stacking). -/
def totalDiscountPercent (v : Variant) (job : Job) : ℚ :=
  existingDiffPercent v + job.discountPercent

/-- The raw new price `anchorPrice * (1 - totalDiscountPercent / 100)`
before rounding and clamping. -/
def newPriceRaw (v : Variant) (job : Job) : ℚ :=
  anchorPrice v * (1 - totalDiscountPercent v job / 100)

/-- `let newPrice = raw.toFixed(2); if (newPrice < 0) newPrice = "0.00"`:
the two-decimal string, clamped (the JS `<` coerces the string back to a
number). -/
def newPriceClamped (v : Variant) (job : Job) : DecStr :=
  if (toFixed2 (newPriceRaw v job)).val < 0 then ⟨false, 0, 2⟩
  else toFixed2 (newPriceRaw v job)

/-- The PUT body of Pass A: the clamped new price, with
`compare_at_price` locked to the two-decimal anchor. -/
def activateWriteReq (v : Variant) (job : Job) : WriteReq :=
  ⟨FieldVal.val (newPriceClamped v job), FieldVal.val (toFixed2 (anchorPrice v))⟩

/-- One Pass A iteration (`GET /api/cron`, loop over `toStart`): read the
variant, compute the anchor price, the existing gap percentage, the
additive total, the clamped two-decimal new price; PUT price and anchor;
then save `originalPrice = currentPrice.toFixed(2)`, `originalCompareAt =
rawCompare` and `status = 'active'`.  Any thrown step leaves the record
untouched and yields the error message; the PUT response status is not
checked. -/
def passAJob (cat : Catalog) (f : FaultSpec) (job : Job) : JStep :=
  match readVariant cat f job.variantId with
  | Except.error msg => ⟨cat, job, some msg⟩
  | Except.ok v =>
    match writeVariant cat f job.variantId (activateWriteReq v job) with
    | Except.error msg => ⟨cat, job, some msg⟩
    | Except.ok (cat2, _resp) =>
      match f.saveFault with
      | some msg => ⟨cat2, job, some msg⟩
      | none =>
        ⟨cat2,
         { job with
            originalPrice := some (toFixed2 v.price.val),
            originalCompareAt := v.compare_at_price,
            status := Status.active },
         none⟩

/-- The PUT body used to restore a job's captured prices (Pass B of the
cron and the end-all revert build the same body): `price` is the stored
`originalPrice`, `compare_at_price` is the stored `originalCompareAt`,
where a stored `null` is serialised as an explicit JSON `null` (clearing
the compare-at price) while a never-set `originalPrice` would be
`undefined` and dropped from the JSON body. -/
def revertWriteReq (job : Job) : WriteReq :=
  ⟨(match job.originalPrice with
    | some d => FieldVal.val d
    | none => FieldVal.omitted),
   (match job.originalCompareAt with
    | some d => FieldVal.val d
    | none => FieldVal.jnull)⟩

/-- One Pass B iteration (`GET /api/cron`, loop over `toRevert`): PUT the
stored original prices back, then save `status = 'completed'`.  The PUT
response status is not checked; only a thrown step records an error and
leaves the record untouched. -/
def passBJob (cat : Catalog) (f : FaultSpec) (job : Job) : JStep :=
  match writeVariant cat f job.variantId (revertWriteReq job) with
  | Except.error msg => ⟨cat, job, some msg⟩
  | Except.ok (cat2, _resp) =>
    match f.saveFault with
    | some msg => ⟨cat2, job, some msg⟩
    | none => ⟨cat2, { job with status := Status.completed }, none⟩

/-- One end-all revert iteration (`POST /api/end-all`, loop over
`activeJobs`): the same restoring PUT as Pass B, but the handler throws on
a non-2xx response (`response.ok` check), and on success it also stamps
`endTime = new Date()` before saving `status = 'completed'`. -/
def endAllJob (now : Int) (cat : Catalog) (f : FaultSpec) (job : Job) : JStep :=
  match writeVariant cat f job.variantId (revertWriteReq job) with
  | Except.error msg => ⟨cat, job, some msg⟩
  | Except.ok (cat2, resp) =>
    match resp with
    | some code => ⟨cat2, job, some ("Shopify API responded with " ++ toString code)⟩
    | none =>
      match f.saveFault with
      | some msg => ⟨cat2, job, some msg⟩
      | none =>
        ⟨cat2, { job with status := Status.completed, endTime := now }, none⟩

/-- Result of one cron pass over the job list: catalog, updated records,
the success counter increment, and the error messages in order. -/
structure PassOut where
  cat : Catalog
  jobs : List Job
  count : Nat
  errors : List String

/-- Pass A over the stored jobs: `Job.find({startTime: {$lte: now},
status: 'pending'}).limit(20)` materialises the first `b` matching records
(in store order), and the loop processes each in turn against the evolving
catalog; non-selected records are untouched. -/
def passAList (now : Int) (F : Faults) : Catalog → Nat → List Job → PassOut
  | cat, _, [] => ⟨cat, [], 0, []⟩
  | cat, b, j :: rest =>
    if j.startTime ≤ now ∧ j.status = Status.pending ∧ 0 < b then
      let r := passAJob cat (F j) j
      let o := passAList now F r.cat (b - 1) rest
      ⟨o.cat, r.job :: o.jobs, (if r.err = none then 1 else 0) + o.count,
        r.err.toList ++ o.errors⟩
    else
      let o := passAList now F cat b rest
      ⟨o.cat, j :: o.jobs, o.count, o.errors⟩

/-- Pass B over the stored jobs: `Job.find({endTime: {$lte: now},
status: 'active'}).limit(20)`, run after Pass A's loop has finished, so it
sees the records Pass A just saved. -/
def passBList (now : Int) (F : Faults) : Catalog → Nat → List Job → PassOut
  | cat, _, [] => ⟨cat, [], 0, []⟩
  | cat, b, j :: rest =>
    if j.endTime ≤ now ∧ j.status = Status.active ∧ 0 < b then
      let r := passBJob cat (F j) j
      let o := passBList now F r.cat (b - 1) rest
      ⟨o.cat, r.job :: o.jobs, (if r.err = none then 1 else 0) + o.count,
        r.err.toList ++ o.errors⟩
    else
      let o := passBList now F cat b rest
      ⟨o.cat, j :: o.jobs, o.count, o.errors⟩

/-- The `log` object returned by one `GET /api/cron` tick. -/
structure TickLog where
  started : Nat
  reverted : Nat
  errors : List String
deriving DecidableEq

/-- Result of one tick: catalog, stored records, and the summary log. -/
structure TickOut where
  cat : Catalog
  jobs : List Job
  log : TickLog

/-- One `GET /api/cron` tick: Pass A (activation) in full, then Pass B
(reversion) over the records as Pass A left them. -/
def tick (now : Int) (F : Faults) (cat : Catalog) (jobs : List Job) : TickOut :=
  let pa := passAList now F cat 20 jobs
  let pb := passBList now F pa.cat 20 pa.jobs
  ⟨pb.cat, pb.jobs, ⟨pa.count, pb.count, pa.errors ++ pb.errors⟩⟩

/-- The request body of `POST /api/schedule`. -/
structure ScheduleReq where
  variantIds : Option (List String)
  discount : ℚ
  startAt : Int
  endAt : Int

/-- The response of `POST /api/schedule`: a 400 validation error, or
success reporting how many jobs were scheduled. -/
inductive ScheduleResp where
  | badRequest (err : String)
  | ok (count : Nat)
deriving DecidableEq

/-- The job record built for one variant id by the schedule handler. -/
def mkJob (req : ScheduleReq) (id : String) : Job :=
  ⟨id, none, req.discount, none, req.startAt, req.endAt, Status.pending⟩

/-- Result of the schedule handler: the job store and the response. -/
structure SchedOut where
  jobs : List Job
  resp : ScheduleResp

/-- `POST /api/schedule`: reject with 400 when `variantIds` is missing or
empty, otherwise `insertMany` one pending job per listed variant and
report the count. -/
def schedule (req : ScheduleReq) (jobs : List Job) : SchedOut :=
  match req.variantIds with
  | none => ⟨jobs, ScheduleResp.badRequest "No variant IDs provided."⟩
  | some ids =>
    if ids.isEmpty then ⟨jobs, ScheduleResp.badRequest "No variant IDs provided."⟩
    else ⟨jobs ++ ids.map (mkJob req), ScheduleResp.ok (ids.map (mkJob req)).length⟩

/-- The `details` object returned by `POST /api/end-all`. -/
structure EndAllLog where
  cancelled_future_jobs : Nat
  reverted_active_jobs : Nat
  errors : List (String × String)
deriving DecidableEq

/-- `Job.updateMany({status: 'pending'}, {status: 'completed'})`: the bulk
cancellation of future jobs, together with its `modifiedCount`.  It never
touches the price store. -/
def cancelPending (jobs : List Job) : List Job × Nat :=
  (jobs.map (fun j => if j.status = Status.pending then
      { j with status := Status.completed } else j),
   (jobs.filter (fun j => j.status == Status.pending)).length)

/-- Result of the end-all handler. -/
structure EndOut where
  cat : Catalog
  jobs : List Job
  log : EndAllLog

/-- The end-all loop over `Job.find({status: 'active'})` (no limit):
revert each active job's prices, throwing on failure, and continue with
the rest. -/
def endAllActive (now : Int) (F : Faults) : Catalog → List Job → EndOut
  | cat, [] => ⟨cat, [], ⟨0, 0, []⟩⟩
  | cat, j :: rest =>
    if j.status = Status.active then
      let r := endAllJob now cat (F j) j
      let o := endAllActive now F r.cat rest
      ⟨o.cat, r.job :: o.jobs,
        ⟨0, (if r.err = none then 1 else 0) + o.log.reverted_active_jobs,
          (match r.err with
           | some m => [(j.variantId, m)]
           | none => []) ++ o.log.errors⟩⟩
    else
      let o := endAllActive now F cat rest
      ⟨o.cat, j :: o.jobs, o.log⟩

/-- `POST /api/end-all`: bulk-cancel every pending job, then synchronously
revert every job that was already active. -/
def endAll (now : Int) (F : Faults) (cat : Catalog) (jobs : List Job) : EndOut :=
  let (jobs1, cancelled) := cancelPending jobs
  let o := endAllActive now F cat jobs1
  ⟨o.cat, o.jobs,
    ⟨cancelled, o.log.reverted_active_jobs, o.log.errors⟩⟩

/-! ## Arithmetic facts about two-decimal rounding -/

theorem toFixed2_val_nonneg (q : ℚ) (h : 0 ≤ q) : 0 ≤ (toFixed2 q).val := by
  unfold toFixed2
  rw [if_neg (not_lt.2 h)]
  simp only [DecStr.val, Bool.false_eq_true, if_false]
  positivity

/-- Rounding the magnitude of a value quoted with at most two decimals
recovers the mantissa scaled onto the hundredths grid. -/
theorem floor_mag_fix (n e : ℕ) (h : e ≤ 2) :
    ⌊(n : ℚ) / 10 ^ e * 100 + 1/2⌋ = (n : ℤ) * 10 ^ (2 - e) := by
  have h10 : ((10 : ℚ) ^ e) ≠ 0 := by positivity
  have h100 : (10 : ℚ) ^ e * (10 : ℚ) ^ (2 - e) = 100 := by
    rw [← pow_add]
    have he : e + (2 - e) = 2 := by omega
    rw [he]; norm_num
  have hval : (n : ℚ) / 10 ^ e * 100 = (((n : ℤ) * 10 ^ (2 - e) : ℤ) : ℚ) := by
    push_cast
    rw [div_mul_eq_mul_div, div_eq_iff h10]
    linear_combination (-(n : ℚ)) * h100
  rw [hval, Int.floor_int_add]
  norm_num

theorem mag_div_eq (n e : ℕ) (h : e ≤ 2) :
    ((n : ℚ) * 10 ^ (2 - e)) / 100 = (n : ℚ) / 10 ^ e := by
  have h10 : ((10 : ℚ) ^ e) ≠ 0 := by positivity
  have h100 : (10 : ℚ) ^ e * (10 : ℚ) ^ (2 - e) = 100 := by
    rw [← pow_add]
    have he : e + (2 - e) = 2 := by omega
    rw [he]; norm_num
  rw [div_eq_div_iff (by norm_num) h10]
  linear_combination (n : ℚ) * h100

theorem toNat_mag_cast (n e : ℕ) :
    ((((n : ℤ) * 10 ^ (2 - e)).toNat : ℕ) : ℚ) = (n : ℚ) * 10 ^ (2 - e) := by
  have h0 : (0 : ℤ) ≤ (n : ℤ) * 10 ^ (2 - e) := by positivity
  have h1 : ((((n : ℤ) * 10 ^ (2 - e)).toNat : ℕ) : ℤ) = (n : ℤ) * 10 ^ (2 - e) :=
    Int.toNat_of_nonneg h0
  have h2 := congrArg (fun z : ℤ => (z : ℚ)) h1
  push_cast at h2
  exact_mod_cast h2

/-- A decimal string with at most two digits after the point is a fixed
point of `toFixed(2)` in numeric value (for either sign; a stored "-0.00"
re-renders as "0.00" but both are the value `0`). -/
theorem toFixed2_fix (d : DecStr) (h : d.e ≤ 2) : (toFixed2 d.val).val = d.val := by
  obtain ⟨s, n, e⟩ := d
  simp only at h
  cases s with
  | false =>
    have hval : (DecStr.mk false n e).val = (n : ℚ) / 10 ^ e := by
      simp [DecStr.val]
    rw [hval]
    have hnn : (0 : ℚ) ≤ (n : ℚ) / 10 ^ e := by positivity
    unfold toFixed2
    rw [if_neg (not_lt.2 hnn), floor_mag_fix n e h]
    simp only [DecStr.val, Bool.false_eq_true, if_false]
    rw [toNat_mag_cast n e, show ((10 : ℚ) ^ 2) = 100 from by norm_num,
      mag_div_eq n e h]
  | true =>
    by_cases hn : n = 0
    · subst hn
      have hval : (DecStr.mk true 0 e).val = 0 := by
        simp [DecStr.val]
      rw [hval]
      unfold toFixed2
      rw [if_neg (lt_irrefl 0)]
      norm_num [DecStr.val]
    · have hval : (DecStr.mk true n e).val = -((n : ℚ) / 10 ^ e) := by
        simp [DecStr.val]
        ring
      rw [hval]
      have hpos : (0 : ℚ) < (n : ℚ) / 10 ^ e := by
        apply div_pos
        · exact_mod_cast Nat.pos_of_ne_zero hn
        · positivity
      unfold toFixed2
      rw [if_pos (by linarith), neg_neg, floor_mag_fix n e h]
      simp only [DecStr.val, if_true]
      rw [toNat_mag_cast n e, show ((10 : ℚ) ^ 2) = 100 from by norm_num,
        neg_div, mag_div_eq n e h]

/-- For inputs strictly between −0.005 and 0, `toFixed(2)` renders the
negative-signed zero "-0.00". -/
theorem toFixed2_neg_small (q : ℚ) (h1 : -(1/200) < q) (h2 : q < 0) :
    toFixed2 q = ⟨true, 0, 2⟩ := by
  unfold toFixed2
  rw [if_pos h2]
  have h3 : (0 : ℚ) ≤ -q * 100 + 1/2 := by nlinarith
  have h4 : -q * 100 + 1/2 < 1 := by nlinarith
  have h5 : ⌊-q * 100 + 1/2⌋ = 0 := by
    rw [Int.floor_eq_zero_iff]
    exact ⟨h3, h4⟩
  rw [h5]
  rfl

/-- For inputs at or below −0.005, `toFixed(2)` renders a strictly
negative value (magnitude at least one hundredth). -/
theorem toFixed2_neg_big_val (q : ℚ) (h : q ≤ -(1/200)) : (toFixed2 q).val < 0 := by
  have h2 : q < 0 := lt_of_le_of_lt h (by norm_num)
  have h3 : (1 : ℚ) ≤ -q * 100 + 1/2 := by nlinarith
  have hfl : 1 ≤ ⌊-q * 100 + 1/2⌋ := Int.le_floor.2 (by exact_mod_cast h3)
  have htn : 1 ≤ (⌊-q * 100 + 1/2⌋).toNat := by omega
  have hq : (1 : ℚ) ≤ (((⌊-q * 100 + 1/2⌋).toNat : ℕ) : ℚ) := by exact_mod_cast htn
  unfold toFixed2
  rw [if_pos h2]
  simp only [DecStr.val, if_true]
  have hden : (0 : ℚ) <            (10 : ℚ) ^ 2 := by norm_num
  apply div_neg_of_neg_of_pos _ hden
  linarith

/-! ## Per-job characterisations -/

theorem passAJob_spec (cat : Catalog) (f : FaultSpec) (j : Job) :
    ((passAJob cat f j).err ≠ none ∧ (passAJob cat f j).job = j) ∨
    ((passAJob cat f j).err = none ∧
      ∃ v, readVariant cat f j.variantId = Except.ok v ∧
        (passAJob cat f j).job =
          { j with originalPrice := some (toFixed2 v.price.val),
                   originalCompareAt := v.compare_at_price,
                   status := Status.active }) := by
  cases hr : readVariant cat f j.variantId with
  | error msg =>
    unfold passAJob
    simp [hr]
  | ok v =>
    cases hw : writeVariant cat f j.variantId (activateWriteReq v j) with
    | error msg =>
      unfold passAJob
      simp [hr, hw]
    | ok p =>
      obtain ⟨cat2, resp⟩ := p
      cases hs : f.saveFault with
      | some msg =>
        unfold passAJob
        simp [hr, hw, hs]
      | none =>
        unfold passAJob
        simp [hr, hw, hs]

theorem passBJob_spec (cat : Catalog) (f : FaultSpec) (j : Job) :
    ((passBJob cat f j).err ≠ none ∧ (passBJob cat f j).job = j) ∨
    ((passBJob cat f j).err = none ∧
      (passBJob cat f j).job = { j with status := Status.completed }) := by
  cases hw : writeVariant cat f j.variantId (revertWriteReq j) with
  | error msg =>
    unfold passBJob
    simp [hw]
  | ok p =>
    obtain ⟨cat2, resp⟩ := p
    cases hs : f.saveFault with
    | some msg =>
      unfold passBJob
      simp [hw, hs]
    | none =>
      unfold passBJob
      simp [hw, hs]

theorem endAllJob_spec (now : Int) (cat : Catalog) (f : FaultSpec) (j : Job) :
    ((endAllJob now cat f j).err ≠ none ∧ (endAllJob now cat f j).job = j) ∨
    ((endAllJob now cat f j).err = none ∧
      (endAllJob now cat f j).job =
        { j with status := Status.completed, endTime := now }) := by
  cases hw : writeVariant cat f j.variantId (revertWriteReq j) with
  | error msg =>
    unfold endAllJob
    simp [hw]
  | ok p =>
    obtain ⟨cat2, resp⟩ := p
    cases resp with
    | some code =>
      unfold endAllJob
      simp [hw]
    | none =>
      cases hs : f.saveFault with
      | some msg =>
        unfold endAllJob
        simp [hw, hs]
      | none =>
        unfold endAllJob
        simp [hw, hs]

theorem passAJob_err_job (cat : Catalog) (f : FaultSpec) (j : Job)
    (h : (passAJob cat f j).err ≠ none) : (passAJob cat f j).job = j := by
  rcases passAJob_spec cat f j with ⟨_, hj⟩ | ⟨he, _⟩
  · exact hj
  · exact absurd he h

theorem passBJob_err_job (cat : Catalog) (f : FaultSpec) (j : Job)
    (h : (passBJob cat f j).err ≠ none) : (passBJob cat f j).job = j := by
  rcases passBJob_spec cat f j with ⟨_, hj⟩ | ⟨he, _⟩
  · exact hj
  · exact absurd he h

theorem passAJob_healthy (cat : Catalog) (j : Job) (v : Variant)
    (hv : cat j.variantId = some v) :
    passAJob cat noFault j =
      ⟨fun k => if k = j.variantId then some (applyWrite v (activateWriteReq v j))
                else cat k,
       { j with originalPrice := some (toFixed2 v.price.val),
                originalCompareAt := v.compare_at_price,
                status := Status.active },
       none⟩ := by
  unfold passAJob readVariant writeVariant noFault
  simp [hv]

theorem passBJob_healthy (cat : Catalog) (j : Job) (v : Variant)
    (hv : cat j.variantId = some v) :
    passBJob cat noFault j =
      ⟨fun k => if k = j.variantId then some (applyWrite v (revertWriteReq j))
                else cat k,
       { j with status := Status.completed },
       none⟩ := by
  unfold passBJob writeVariant noFault
  simp [hv]

theorem endAllJob_healthy (now : Int) (cat : Catalog) (j : Job) (v : Variant)
    (hv : cat j.variantId = some v) :
    endAllJob now cat noFault j =
      ⟨fun k => if k = j.variantId then some (applyWrite v (revertWriteReq j))
                else cat k,
       { j with status := Status.completed, endTime := now },
       none⟩ := by
  unfold endAllJob writeVariant noFault
  simp [hv]

theorem endAllJob_cat_eq (now : Int) (cat : Catalog) (f : FaultSpec) (j : Job) :
    (endAllJob now cat f j).cat = (passBJob cat f j).cat := by
  unfold endAllJob passBJob
  cases hw : writeVariant cat f j.variantId (revertWriteReq j) with
  | error msg => rfl
  | ok p =>
    obtain ⟨cat2, resp⟩ := p
    cases resp with
    | some code =>
      cases hs : f.saveFault <;> rfl
    | none =>
      cases hs : f.saveFault <;> rfl

theorem endAllJob_cat_isSome (now : Int) (cat : Catalog) (f : FaultSpec)
    (j : Job) (k : String) :
    (((endAllJob now cat f j).cat) k).isSome = (cat k).isSome := by
  unfold endAllJob writeVariant
  cases f.writeOutcome with
  | netFail msg => rfl
  | rejected code => rfl
  | ok =>
    cases hc : cat j.variantId with
    | none => cases hs : f.saveFault <;> rfl
    | some v =>
      cases hs : f.saveFault <;>
        · by_cases hk : k = j.variantId
          · simp [hk, hc]
          · simp [hk]

theorem endAllJob_success (now : Int) (cat : Catalog) (f : FaultSpec) (j : Job)
    (hw : f.writeOutcome = WriteOutcome.ok) (hs : f.saveFault = none)
    (hc : (cat j.variantId).isSome) : (endAllJob now cat f j).err = none := by
  obtain ⟨v, hv⟩ := Option.isSome_iff_exists.1 hc
  unfold endAllJob writeVariant
  rw [hw, hv]
  simp [hs]

/-! ## Batch (list) lemmas for the two cron passes -/

/-- The Pass A selection predicate of `Job.find`: `startTime <= now` and
`status = 'pending'`. -/
def startDue (now : Int) (j : Job) : Bool :=
  decide (j.startTime ≤ now) && decide (j.status = Status.pending)

/-- The Pass B selection predicate of `Job.find`: `endTime <= now` and
`status = 'active'`. -/
def endDue (now : Int) (j : Job) : Bool :=
  decide (j.endTime ≤ now) && decide (j.status = Status.active)

theorem passAList_length (now : Int) (F : Faults) :
    ∀ (jobs : List Job) (cat : Catalog) (b : Nat),
      (passAList now F cat b jobs).jobs.length = jobs.length := by
  intro jobs
  induction jobs with
  | nil => intro cat b; rfl
  | cons j rest ih =>
    intro cat b
    unfold passAList
    by_cases h : j.startTime ≤ now ∧ j.status = Status.pending ∧ 0 < b
    · simp [if_pos h, ih]
    · simp [if_neg h, ih]

theorem passBList_length (now : Int) (F : Faults) :
    ∀ (jobs : List Job) (cat : Catalog) (b : Nat),
      (passBList now F cat b jobs).jobs.length = jobs.length := by
  intro jobs
  induction jobs with
  | nil => intro cat b; rfl
  | cons j rest ih =>
    intro cat b
    unfold passBList
    by_cases h : j.endTime ≤ now ∧ j.status = Status.active ∧ 0 < b
    · simp [if_pos h, ih]
    · simp [if_neg h, ih]

theorem passAList_count (now : Int) (F : Faults) :
    ∀ (jobs : List Job) (cat : Catalog) (b : Nat),
      (passAList now F cat b jobs).count
        + (passAList now F cat b jobs).errors.length
        = min b (jobs.countP (startDue now)) := by
  intro jobs
  induction jobs with
  | nil => intro cat b; simp [passAList]
  | cons j rest ih =>
    intro cat b
    unfold passAList
    by_cases h : j.startTime ≤ now ∧ j.status = Status.pending ∧ 0 < b
    · have hsel : startDue now j = true := by
        simp [startDue, h.1, h.2.1]
      simp only [if_pos h, List.countP_cons, hsel]
      cases he : (passAJob cat (F j) j).err with
      | none =>
        simp only [he]
        have := ih (passAJob cat (F j) j).cat (b - 1)
        have hb := h.2.2
        simp at this ⊢
        omega
      | some m =>
        have := ih (passAJob cat (F j) j).cat (b - 1)
        have hb := h.2.2
        simp at this ⊢
        omega
    · simp only [if_neg h]
      by_cases hm : startDue now j = true
      · have hm2 : j.startTime ≤ now ∧ j.status = Status.pending := by
          simpa [startDue] using hm
        have hb : b = 0 := by
          by_contra hb
          exact h ⟨hm2.1, hm2.2, Nat.pos_of_ne_zero hb⟩
        subst hb
        simp [List.countP_cons, hm, ih]
      · have hm' : startDue now j = false := by
          cases hx : startDue now j
          · rfl
          · exact absurd hx hm
        simp [List.countP_cons, hm', ih]

theorem passBList_count (now : Int) (F : Faults) :
    ∀ (jobs : List Job) (cat : Catalog) (b : Nat),
      (passBList now F cat b jobs).count
        + (passBList now F cat b jobs).errors.length
        = min b (jobs.countP (endDue now)) := by
  intro jobs
  induction jobs with
  | nil => intro cat b; simp [passBList]
  | cons j rest ih =>
    intro cat b
    unfold passBList
    by_cases h : j.endTime ≤ now ∧ j.status = Status.active ∧ 0 < b
    · have hsel : endDue now j = true := by
        simp [endDue, h.1, h.2.1]
      simp only [if_pos h, List.countP_cons, hsel]
      cases he : (passBJob cat (F j) j).err with
      | none =>
        simp only [he]
        have := ih (passBJob cat (F j) j).cat (b - 1)
        have hb := h.2.2
        simp at this ⊢
        omega
      | some m =>
        have := ih (passBJob cat (F j) j).cat (b - 1)
        have hb := h.2.2
        simp at this ⊢
        omega
    · simp only [if_neg h]
      by_cases hm : endDue now j = true
      · have hm2 : j.endTime ≤ now ∧ j.status = Status.active := by
          simpa [endDue] using hm
        have hb : b = 0 := by
          by_contra hb
          exact h ⟨hm2.1, hm2.2, Nat.pos_of_ne_zero hb⟩
        subst hb
        simp [List.countP_cons, hm, ih]
      · have hm' : endDue now j = false := by
          cases hx : endDue now j
          · rfl
          · exact absurd hx hm
        simp [List.countP_cons, hm', ih]

theorem passAList_rel (now : Int) (F : Faults) :
    ∀ (jobs : List Job) (cat : Catalog) (b : Nat),
      List.Forall₂
        (fun j j' => j' = j ∨ (j.status = Status.pending ∧ j'.status = Status.active))
        jobs (passAList now F cat b jobs).jobs := by
  intro jobs
  induction jobs with
  | nil => intro cat b; exact List.Forall₂.nil
  | cons j rest ih =>
    intro cat b
    unfold passAList
    by_cases h : j.startTime ≤ now ∧ j.status = Status.pending ∧ 0 < b
    · simp only [if_pos h]
      refine List.Forall₂.cons ?_ (ih _ _)
      rcases passAJob_spec cat (F j) j with ⟨_, hj⟩ | ⟨_, v, _, hj⟩
      · exact Or.inl hj
      · exact Or.inr ⟨h.2.1, by rw [hj]⟩
    · simp only [if_neg h]
      exact List.Forall₂.cons (Or.inl rfl) (ih _ _)

theorem passBList_rel (now : Int) (F : Faults) :
    ∀ (jobs : List Job) (cat : Catalog) (b : Nat),
      List.Forall₂
        (fun j j' => j' = j ∨ (j.status = Status.active ∧ j'.status = Status.completed))
        jobs (passBList now F cat b jobs).jobs := by
  intro jobs
  induction jobs with
  | nil => intro cat b; exact List.Forall₂.nil
  | cons j rest ih =>
    intro cat b
    unfold passBList
    by_cases h : j.endTime ≤ now ∧ j.status = Status.active ∧ 0 < b
    · simp only [if_pos h]
      refine List.Forall₂.cons ?_ (ih _ _)
      rcases passBJob_spec cat (F j) j with ⟨_, hj⟩ | ⟨_, hj⟩
      · exact Or.inl hj
      · exact Or.inr ⟨h.2.1, by rw [hj]⟩
    · simp only [if_neg h]
      exact List.Forall₂.cons (Or.inl rfl) (ih _ _)

/-- Composition of two pointwise list relations. -/
theorem forall2_comp {α : Type} {R S T : α → α → Prop}
    (hc : ∀ a b c, R a b → S b c → T a c) :
    ∀ {l1 l2 l3 : List α}, List.Forall₂ R l1 l2 → List.Forall₂ S l2 l3 →
      List.Forall₂ T l1 l3 := by
  intro l1 l2 l3 h12
  induction h12 generalizing l3 with
  | nil =>
    intro h23
    cases h23
    exact List.Forall₂.nil
  | cons hab h12' ih =>
    intro h23
    cases h23 with
    | cons hbc h23' => exact List.Forall₂.cons (hc _ _ _ hab hbc) (ih h23')

/-- A mapped list is pointwise related to the original. -/
theorem forall2_map_self {α : Type} (f : α → α) (P : α → α → Prop)
    (h : ∀ a, P a (f a)) : ∀ l : List α, List.Forall₂ P l (l.map f)
  | [] => List.Forall₂.nil
  | a :: l => List.Forall₂.cons (h a) (forall2_map_self f P h l)

/-! ## Emergency-stop lemmas -/

theorem cancelPending_count (jobs : List Job) :
    (cancelPending jobs).2 = jobs.countP (fun j => j.status == Status.pending) := by
  simp [cancelPending, List.countP_eq_length_filter]

theorem cancelPending_rel (jobs : List Job) :
    List.Forall₂
      (fun j j' =>
        (j.status = Status.pending ∧ j' = { j with status := Status.completed }) ∨
        (j.status ≠ Status.pending ∧ j' = j))
      jobs (cancelPending jobs).1 := by
  refine forall2_map_self _ _ (fun j => ?_) jobs
  by_cases hj : j.status = Status.pending
  · exact Or.inl ⟨hj, by rw [if_pos hj]⟩
  · exact Or.inr ⟨hj, by rw [if_neg hj]⟩

theorem endAllActive_rel (now : Int) (F : Faults) :
    ∀ (jobs : List Job) (cat : Catalog),
      List.Forall₂
        (fun j j' => j' = j ∨
          (j.status = Status.active ∧
            j' = { j with status := Status.completed, endTime := now }))
        jobs (endAllActive now F cat jobs).jobs := by
  intro jobs
  induction jobs with
  | nil => intro cat; exact List.Forall₂.nil
  | cons j rest ih =>
    intro cat
    unfold endAllActive
    by_cases hj : j.status = Status.active
    · simp only [if_pos hj]
      refine List.Forall₂.cons ?_ (ih _)
      rcases endAllJob_spec now cat (F j) j with ⟨_, hje⟩ | ⟨_, hje⟩
      · exact Or.inl hje
      · exact Or.inr ⟨hj, hje⟩
    · simp only [if_neg hj]
      exact List.Forall₂.cons (Or.inl rfl) (ih _)

theorem endAllActive_ok (now : Int) (F : Faults) :
    ∀ (jobs : List Job) (cat : Catalog),
      (∀ j ∈ jobs, j.status = Status.active →
        (F j).writeOutcome = WriteOutcome.ok ∧ (F j).saveFault = none ∧
          (cat j.variantId).isSome) →
      (endAllActive now F cat jobs).log.reverted_active_jobs
          = jobs.countP (fun j => j.status == Status.active) ∧
      (endAllActive now F cat jobs).log.errors = [] ∧
      (∀ k, ((endAllActive now F cat jobs).cat k).isSome = (cat k).isSome) := by
  intro jobs
  induction jobs with
  | nil =>
    intro cat _
    exact ⟨rfl, rfl, fun k => rfl⟩
  | cons j rest ih =>
    intro cat hyp
    unfold endAllActive
    by_cases hj : j.status = Status.active
    · simp only [if_pos hj]
      obtain ⟨hw, hs, hc⟩ := hyp j (List.mem_cons_self j rest) hj
      have hje : (endAllJob now cat (F j) j).err = none :=
        endAllJob_success now cat (F j) j hw hs hc
      have hcat : ∀ k, (((endAllJob now cat (F j) j).cat) k).isSome = (cat k).isSome :=
        endAllJob_cat_isSome now cat (F j) j
      have ih' := ih (endAllJob now cat (F j) j).cat (by
        intro j' hj' ha
        obtain ⟨hw', hs', hc'⟩ := hyp j' (List.mem_cons_of_mem j hj') ha
        exact ⟨hw', hs', by rw [hcat]; exact hc'⟩)
      refine ⟨?_, ?_, ?_⟩
      · simp only [hje, List.countP_cons]
        have : (j.status == Status.active) = true := by simp [hj]
        simp [this, ih'.1]
        omega
      · simp [hje, ih'.2.1]
      · intro k
        rw [ih'.2.2 k, hcat k]
    · simp only [if_neg hj]
      have ih' := ih cat (by
        intro j' hj' ha
        exact hyp j' (List.mem_cons_of_mem j hj') ha)
      refine ⟨?_, ih'.2.1, ih'.2.2⟩
      · simp only [List.countP_cons]
        have : (j.status == Status.active) = false := by
          simp [hj]
        simp [this, ih'.1]

theorem endAllActive_cat_inactive (now : Int) (F : Faults) :
    ∀ (jobs : List Job) (cat : Catalog),
      (∀ j ∈ jobs, j.status ≠ Status.active) →
      (endAllActive now F cat jobs).cat = cat := by
  intro jobs
  induction jobs with
  | nil => intro cat _; rfl
  | cons j rest ih =>
    intro cat hyp
    unfold endAllActive
    rw [if_neg (hyp j (List.mem_cons_self j rest))]
    exact ih cat (fun j' hj' => hyp j' (List.mem_cons_of_mem j hj'))

/-! ## Claim theorems -/

/-- C1: a pending job processed by Pass A against a healthy price store
that returns current price `p = v.price` and optional reference price
`r = v.compare_at_price` (prices nonnegative, and in the unclamped regime,
`0 ≤ a * (1 - t/100)`; the clamp is claim C2): the price written back to
the store is `a * (1 - t/100)` rounded to two decimals, where the anchor
`a` is `r` if it exists and exceeds `p` and otherwise `p`, the existing
discount is `e = (a - p)/a * 100` if `p < a` else `0`, and the total
`t = e + job.discountPercent` is additive.  The reference price written is
the anchor's two-decimal rendering, whose value is exactly `a` whenever
the store quotes at most two decimal places. -/
theorem passA_discount_stacking (cat : Catalog) (j : Job) (v : Variant)
    (a e t : ℚ)
    (hv : cat j.variantId = some v)
    (hp : 0 ≤ v.price.val)
    (ha : a = (match v.compare_at_price with
               | some r => if r.val > v.price.val then r.val else v.price.val
               | none => v.price.val))
    (he : e = (if v.price.val < a then (a - v.price.val) / a * 100 else 0))
    (ht : t = e + j.discountPercent)
    (hraw : 0 ≤ a * (1 - t / 100)) :
    (passAJob cat noFault j).err = none ∧
    (passAJob cat noFault j).cat j.variantId =
      some ⟨toFixed2 (a * (1 - t / 100)), some (toFixed2 a)⟩ ∧
    (v.price.e ≤ 2 → (∀ r ∈ v.compare_at_price, r.e ≤ 2) →
      (toFixed2 a).val = a) := by
  have hA : anchorPrice v = a := by
    unfold anchorPrice currentCompare
    cases hc : v.compare_at_price with
    | none =>
      simp only [hc] at ha
      rw [if_neg (by exact not_lt.2 hp)]
      exact ha.symm
    | some r =>
      simp only [hc] at ha
      exact ha.symm
  have hE : existingDiffPercent v = e := by
    unfold existingDiffPercent
    rw [hA]
    by_cases hlt : v.price.val < a
    · rw [if_pos ⟨lt_of_le_of_lt hp hlt, hlt⟩, he, if_pos hlt]
    · rw [if_neg (fun hh => hlt hh.2), he, if_neg hlt]
  have hT : totalDiscountPercent v j = t := by
    unfold totalDiscountPercent
    rw [hE, ht]
  have hRaw : newPriceRaw v j = a * (1 - t / 100) := by
    unfold newPriceRaw
    rw [hA, hT]
  have hClamp : newPriceClamped v j = toFixed2 (a * (1 - t / 100)) := by
    unfold newPriceClamped
    rw [hRaw, if_neg (not_lt.2 (toFixed2_val_nonneg _ hraw))]
  have hstep := passAJob_healthy cat j v hv
  refine ⟨by rw [hstep], ?_, ?_⟩
  · rw [hstep]
    simp only [if_pos rfl]
    simp [applyWrite, applyField, activateWriteReq, hClamp, hA]
  · intro h2p h2r
    cases hc : v.compare_at_price with
    | none =>
      simp only [hc] at ha
      rw [ha]
      exact toFixed2_fix v.price h2p
    | some r =>
      simp only [hc] at ha
      rw [ha]
      by_cases hgt : r.val > v.price.val
      · rw [if_pos hgt]
        exact toFixed2_fix r (h2r r (by rw [hc]; exact rfl))
      · rw [if_neg hgt]
        exact toFixed2_fix v.price h2p

/-- The healthy catalog for the C1 witness: variant "v1" priced "80.00"
with compare-at "100.00". -/
def catC1 : Catalog :=
  fun k => if k = "v1" then some ⟨⟨false, 8000, 2⟩, some ⟨false, 10000, 2⟩⟩ else none

/-- The C1 witness job: 10% merchant discount on variant "v1". -/
def jobC1 : Job := ⟨"v1", none, 10, none, 0, 100, Status.pending⟩

/-- C1 witness: anchor 100, current 80 (existing 20% gap), merchant 10% ⇒
total 30%, written price "70.00", reference price locked at "100.00". -/
theorem passA_discount_stacking_witness :
    (passAJob catC1 noFault jobC1).err = none ∧
    (passAJob catC1 noFault jobC1).cat "v1" =
      some ⟨⟨false, 7000, 2⟩, some ⟨false, 10000, 2⟩⟩ := by
  have h := passA_discount_stacking catC1 jobC1 ⟨⟨false, 8000, 2⟩, some ⟨false, 10000, 2⟩⟩ 100 20 30
    (by decide)
    (by norm_num [DecStr.val])
    (by norm_num [DecStr.val])
    (by norm_num [DecStr.val])
    (by norm_num [jobC1])
    (by norm_num)
  refine ⟨h.1, ?_⟩
  have h2 := h.2.1
  rw [show jobC1.variantId = "v1" from rfl] at h2
  rw [h2]
  norm_num [toFixed2]
  simp only [Int.reduceToNat, and_self]

/-- Pass B against a healthy network when the variant does not exist: the
PUT resolves with a 404, which the cron revert never checks, so the job is
still marked completed. -/
theorem passBJob_noFault_missing (cat : Catalog) (j : Job)
    (hcat : cat j.variantId = none) :
    passBJob cat noFault j = ⟨cat, { j with status := Status.completed }, none⟩ := by
  unfold passBJob writeVariant noFault
  simp [hcat]

/-- The variant for the C2 counterexample: priced "0.50" with a
compare-at of "100.00" — a 99.5% existing gap. -/
def vC2c : Variant := ⟨⟨false, 50, 2⟩, some ⟨false, 10000, 2⟩⟩

/-- The catalog for the C2 counterexample. -/
def catC2c : Catalog := fun k => if k = "v2c" then some vC2c else none

/-- The C2 counterexample job: a 0.501% merchant discount, pushing the
total to 100.001% and the raw price to −0.001. -/
def jobC2c : Job := ⟨"v2c", none, 501/1000, none, 0, 100, Status.pending⟩

/-- C2 counterexample: with anchor 100, current price 0.50 and merchant
discount 0.501%, the raw product is −0.001 — negative — yet the price the
source writes is `(-0.001).toFixed(2)` = "-0.00", which the clamp does not
touch (`Number("-0.00")` is −0, not `< 0`), and which is not the string
"0.00". -/
theorem passA_clamp_negzero_counter :
    (passAJob catC2c noFault jobC2c).cat "v2c"
      = some ⟨⟨true, 0, 2⟩, some ⟨false, 10000, 2⟩⟩ ∧
    anchorPrice vC2c * (1 - totalDiscountPercent vC2c jobC2c / 100) < 0 ∧
    (⟨true, 0, 2⟩ : DecStr) ≠ ⟨false, 0, 2⟩ := by
  refine ⟨?_, ?_, by decide⟩
  · norm_num [passAJob, readVariant, writeVariant, noFault, catC2c, vC2c, jobC2c,
      activateWriteReq, newPriceClamped, newPriceRaw, totalDiscountPercent,
      existingDiffPercent, anchorPrice, currentCompare, applyWrite, applyField,
      DecStr.val, toFixed2]
    simp only [Int.reduceToNat]
  · norm_num [totalDiscountPercent, existingDiffPercent, anchorPrice,
      currentCompare, vC2c, jobC2c, DecStr.val]

/-- C2 (amended): for every job activated by Pass A (healthy store
returning `v`, with `a` the code's anchor price and `t` its total discount
percent), the written price's numeric value is never negative, and
whenever the raw product `a * (1 - t/100)` is at or below −0.005 — that
is, whenever its two-decimal rendering has a nonzero magnitude — the clamp
fires and the written price is exactly "0.00" (`⟨false, 0, 2⟩`); but for
raw products strictly between −0.005 and 0 the rendering is the
negative-signed zero "-0.00" (`⟨true, 0, 2⟩`), whose numeric value −0 is
not `< 0`, so the clamp does not fire and the written string is "-0.00",
not "0.00". -/
theorem passA_price_clamp (cat : Catalog) (j : Job) (v : Variant) (a t : ℚ)
    (hv : cat j.variantId = some v)
    (ha : a = anchorPrice v)
    (ht : t = totalDiscountPercent v j) :
    ∀ w, (passAJob cat noFault j).cat j.variantId = some w →
      0 ≤ w.price.val ∧
      (a * (1 - t / 100) ≤ -(1/200) → w.price = ⟨false, 0, 2⟩) ∧
      (-(1/200) < a * (1 - t / 100) → a * (1 - t / 100) < 0 →
        w.price = ⟨true, 0, 2⟩ ∧ (⟨true, 0, 2⟩ : DecStr) ≠ ⟨false, 0, 2⟩) := by
  subst ha
  subst ht
  intro w hw
  have hstep := passAJob_healthy cat j v hv
  rw [hstep] at hw
  simp only [if_pos rfl, if_true, eq_self_iff_true, Option.some.injEq] at hw
  subst hw
  have hprice : (applyWrite v (activateWriteReq v j)).price = newPriceClamped v j := rfl
  rw [hprice]
  refine ⟨?_, ?_, ?_⟩
  · unfold newPriceClamped
    by_cases hval : (toFixed2 (newPriceRaw v j)).val < 0
    · rw [if_pos hval]
      norm_num [DecStr.val]
    · rw [if_neg hval]
      exact not_lt.1 hval
  · intro hbig
    have hbig' : newPriceRaw v j ≤ -(1/200) := hbig
    unfold newPriceClamped
    rw [if_pos (toFixed2_neg_big_val _ hbig')]
  · intro hsmall hneg
    have hsmall' : -(1/200) < newPriceRaw v j := hsmall
    have hneg' : newPriceRaw v j < 0 := hneg
    have hzero := toFixed2_neg_small (newPriceRaw v j) hsmall' hneg'
    refine ⟨?_, by decide⟩
    unfold newPriceClamped
    rw [hzero]
    rw [if_neg (by norm_num [DecStr.val])]

/-- The catalog for the C2 witness: variant "v2" priced "10.00", no
compare-at price. -/
def catC2 : Catalog := fun k => if k = "v2" then some ⟨⟨false, 1000, 2⟩, none⟩ else none

/-- The C2 witness job: a 150% merchant discount on variant "v2". -/
def jobC2 : Job := ⟨"v2", none, 150, none, 0, 100, Status.pending⟩

/-- C2 (amended) witness: anchor 10, merchant discount 150% ⇒ raw price −5
is below −0.005, the clamp fires, and the written price is exactly
"0.00". -/
theorem passA_price_clamp_witness :
    (passAJob catC2 noFault jobC2).cat "v2" = some ⟨⟨false, 0, 2⟩, some ⟨false, 1000, 2⟩⟩ ∧
    (10 : ℚ) * (1 - 150 / 100) ≤ -(1/200) ∧
    (Variant.mk ⟨false, 0, 2⟩ (some ⟨false, 1000, 2⟩)).price = ⟨false, 0, 2⟩ := by
  have hcat : (passAJob catC2 noFault jobC2).cat "v2"
      = some ⟨⟨false, 0, 2⟩, some ⟨false, 1000, 2⟩⟩ := by
    norm_num [passAJob, readVariant, writeVariant, noFault, catC2, jobC2,
      activateWriteReq, newPriceClamped, newPriceRaw, totalDiscountPercent,
      existingDiffPercent, anchorPrice, currentCompare, applyWrite, applyField,
      DecStr.val, toFixed2]
    simp only [Int.reduceToNat]
    norm_num
  refine ⟨hcat, by norm_num, ?_⟩
  exact (passA_price_clamp catC2 jobC2 ⟨⟨false, 1000, 2⟩, none⟩ 10 150 (by decide)
      (by norm_num [anchorPrice, currentCompare, DecStr.val])
      (by norm_num [totalDiscountPercent, existingDiffPercent, anchorPrice,
        currentCompare, jobC2, DecStr.val])
      ⟨⟨false, 0, 2⟩, some ⟨false, 1000, 2⟩⟩
      (by rw [show jobC2.variantId = "v2" from rfl]; exact hcat)).2.1
    (by norm_num)

/-- The catalog for the C3 counterexample: the store quotes variant "v3"
at "80.5", one decimal digit. -/
def catC3 : Catalog := fun k => if k = "v3" then some ⟨⟨false, 805, 1⟩, none⟩ else none

/-- The C3 job: any pending job on variant "v3". -/
def jobC3 : Job := ⟨"v3", none, 0, none, 0, 100, Status.pending⟩

/-- C3 counterexample: the price store returns the decimal string "80.5"
(`⟨false, 805, 1⟩`), yet the persisted `originalPrice` is
`currentPrice.toFixed(2)` = "80.50" (`⟨false, 8050, 2⟩`) — a reformatted string,
not the price exactly as read. -/
theorem originalPrice_reformatted_counter :
    catC3 "v3" = some ⟨⟨false, 805, 1⟩, none⟩ ∧
    (passAJob catC3 noFault jobC3).err = none ∧
    (passAJob catC3 noFault jobC3).job.originalPrice = some ⟨false, 8050, 2⟩ ∧
    (⟨false, 8050, 2⟩ : DecStr) ≠ ⟨false, 805, 1⟩ := by
  have h := passAJob_healthy catC3 jobC3 ⟨⟨false, 805, 1⟩, none⟩ (by decide)
  refine ⟨by decide, by rw [h], ?_, by decide⟩
  rw [h]
  norm_num [toFixed2, DecStr.val]
  simp only [Int.reduceToNat]

/-- C3 (amended): for every job activated by Pass A with a healthy store,
the persisted `originalPrice` is the read price reparsed and reformatted
to exactly two decimals (`currentPrice.toFixed(2)`) — numerically equal to
the read price whenever the store quotes at most two decimals, but not the
verbatim string — while `originalCompareAt` is the reference price exactly
as read (absent stays absent) and the status becomes active. -/
theorem passA_persist_fields (cat : Catalog) (j : Job) (v : Variant)
    (hv : cat j.variantId = some v) :
    (passAJob cat noFault j).err = none ∧
    (passAJob cat noFault j).job.originalPrice = some (toFixed2 v.price.val) ∧
    (v.price.e ≤ 2 → (toFixed2 v.price.val).val = v.price.val) ∧
    (passAJob cat noFault j).job.originalCompareAt = v.compare_at_price ∧
    (passAJob cat noFault j).job.status = Status.active := by
  have h := passAJob_healthy cat j v hv
  exact ⟨by rw [h], by rw [h], fun h2 => toFixed2_fix v.price h2,
    by rw [h], by rw [h]⟩

/-- C3 (amended) witness, on the "80.5" store of the counterexample. -/
theorem passA_persist_fields_witness :
    (passAJob catC3 noFault jobC3).err = none ∧
    (passAJob catC3 noFault jobC3).job.status = Status.active := by
  have h := passA_persist_fields catC3 jobC3 ⟨⟨false, 805, 1⟩, none⟩ (by decide)
  exact ⟨h.1, h.2.2.2.2⟩

/-- C4: the Pass B revert sends back the stored `originalPrice` and
`originalCompareAt` verbatim; when `originalCompareAt` is absent the
`compare_at_price` field is sent as an explicit `null` (a clearing value,
not an omitted field — applying it removes the store's reference price);
and after a successful write the job's status is set to completed, the
catalog changing exactly by the revert body. -/
theorem passB_revert_write (cat : Catalog) (j : Job) (d : DecStr)
    (hp : j.originalPrice = some d) :
    (revertWriteReq j).price = FieldVal.val d ∧
    (∀ c, j.originalCompareAt = some c →
      (revertWriteReq j).compare_at_price = FieldVal.val c) ∧
    (j.originalCompareAt = none →
      (revertWriteReq j).compare_at_price = FieldVal.jnull ∧
      FieldVal.jnull ≠ FieldVal.omitted ∧
      ∀ v : Variant, (applyWrite v (revertWriteReq j)).compare_at_price = none) ∧
    (passBJob cat noFault j).err = none ∧
    (passBJob cat noFault j).job = { j with status := Status.completed } ∧
    (passBJob cat noFault j).cat j.variantId =
      (cat j.variantId).map (fun v => applyWrite v (revertWriteReq j)) := by
  refine ⟨by simp [revertWriteReq, hp], fun c hc => by simp [revertWriteReq, hc],
    fun hc => ⟨by simp [revertWriteReq, hc], by simp,
      fun v => by simp [applyWrite, applyField, revertWriteReq, hc]⟩,
    ?_, ?_, ?_⟩
  · cases hcat : cat j.variantId with
    | none => rw [passBJob_noFault_missing cat j hcat]
    | some v => rw [passBJob_healthy cat j v hcat]
  · cases hcat : cat j.variantId with
    | none => rw [passBJob_noFault_missing cat j hcat]
    | some v => rw [passBJob_healthy cat j v hcat]
  · cases hcat : cat j.variantId with
    | none =>
      rw [passBJob_noFault_missing cat j hcat]
      simp [hcat]
    | some v =>
      rw [passBJob_healthy cat j v hcat]
      simp [hcat]

/-- The catalog for the C4 witness: variant "v4" currently priced "5.00"
with a compare-at of "9.99" that the revert must clear. -/
def catC4 : Catalog :=
  fun k => if k = "v4" then some ⟨⟨false, 500, 2⟩, some ⟨false, 999, 2⟩⟩ else none

/-- The C4 witness job: active, captured originalPrice "7.77", no captured
compare-at. -/
def jobC4 : Job := ⟨"v4", some ⟨false, 777, 2⟩, 5, none, 0, 10, Status.active⟩

/-- C4 witness: the revert restores price "7.77" and explicitly clears the
compare-at price, and the job ends completed. -/
theorem passB_revert_write_witness :
    (passBJob catC4 noFault jobC4).cat "v4" = some ⟨⟨false, 777, 2⟩, none⟩ ∧
    (passBJob catC4 noFault jobC4).job.status = Status.completed := by
  have h := passB_revert_write catC4 jobC4 ⟨false, 777, 2⟩ rfl
  constructor
  · have hc := h.2.2.2.2.2
    rw [show jobC4.variantId = "v4" from rfl] at hc
    rw [hc]
    decide
  · rw [h.2.2.2.2.1]

/-- C5: per-job failures never block the batch.  A failing Pass A or Pass
B iteration (thrown read, thrown write, or failing save) leaves that job's
stored record exactly as it was — hence in its prior pending/active status
with nothing partially applied; each pass still processes every due job
within its 20-job budget, each pass's counter plus its error count equals
the number of selected jobs, the tick's error list is the concatenation of
the per-job error messages of the two passes, and every record either
stays unchanged or makes the pass's legitimate transition. -/
theorem cron_per_job_failure (now : Int) (F : Faults) (cat : Catalog)
    (jobs : List Job) :
    (∀ (c : Catalog) (f : FaultSpec) (j : Job),
        ((passAJob c f j).err ≠ none → (passAJob c f j).job = j) ∧
        ((passBJob c f j).err ≠ none → (passBJob c f j).job = j)) ∧
    (tick now F cat jobs).log.started
        + (passAList now F cat 20 jobs).errors.length
        = min 20 (jobs.countP (startDue now)) ∧
    (tick now F cat jobs).log.reverted
        + (passBList now F (passAList now F cat 20 jobs).cat 20
            (passAList now F cat 20 jobs).jobs).errors.length
        = min 20 ((passAList now F cat 20 jobs).jobs.countP (endDue now)) ∧
    (tick now F cat jobs).log.errors
        = (passAList now F cat 20 jobs).errors
          ++ (passBList now F (passAList now F cat 20 jobs).cat 20
              (passAList now F cat 20 jobs).jobs).errors ∧
    List.Forall₂
      (fun j j' => j' = j ∨ (j.status = Status.pending ∧ j'.status = Status.active))
      jobs (passAList now F cat 20 jobs).jobs ∧
    List.Forall₂
      (fun j j' => j' = j ∨ (j.status = Status.active ∧ j'.status = Status.completed))
      (passAList now F cat 20 jobs).jobs (tick now F cat jobs).jobs := by
  refine ⟨?_, ?_, ?_, rfl, ?_, ?_⟩
  · intro c f j
    exact ⟨passAJob_err_job c f j, passBJob_err_job c f j⟩
  · exact passAList_count now F jobs cat 20
  · exact passBList_count now F _ _ 20
  · exact passAList_rel now F jobs cat 20
  · exact passBList_rel now F _ _ 20

/-- An empty catalog for the C5 witness. -/
def catC5 : Catalog := fun _ => none

/-- The C5 witness job. -/
def jobC5 : Job := ⟨"v5", none, 10, none, 0, 10, Status.pending⟩

/-- An injected read failure for the C5 witness. -/
def faultC5 : FaultSpec := ⟨some "boom", WriteOutcome.ok, none⟩

/-- C5 witness: a Pass A iteration whose price-store read throws records
the error and leaves the record untouched, still pending. -/
theorem cron_per_job_failure_witness :
    (passAJob catC5 faultC5 jobC5).err = some "boom" ∧
    (passAJob catC5 faultC5 jobC5).job = jobC5 ∧
    (passAJob catC5 faultC5 jobC5).job.status = Status.pending := by
  have he : (passAJob catC5 faultC5 jobC5).err = some "boom" := by decide
  have h := ((cron_per_job_failure 0 healthy catC5 []).1 catC5 faultC5 jobC5).1
    (by rw [he]; exact Option.some_ne_none _)
  exact ⟨he, h, by rw [h]; rfl⟩

/-- C6: the Schedule API rejects with a 400 validation error exactly when
the variant list is missing or empty, leaving the job store untouched in
that case; otherwise it appends one pending job per listed variant with
the requested discount and window, reports the number created, and a
repeated call appends a second, independent batch (no duplicate
detection). -/
theorem schedule_validation (req : ScheduleReq) (jobs : List Job) :
    ((∃ msg, (schedule req jobs).resp = ScheduleResp.badRequest msg) ↔
      (req.variantIds = none ∨ req.variantIds = some [])) ∧
    ((req.variantIds = none ∨ req.variantIds = some []) →
      (schedule req jobs).jobs = jobs) ∧
    (∀ ids, req.variantIds = some ids → ids ≠ [] →
      (schedule req jobs).jobs = jobs ++ ids.map (mkJob req) ∧
      (schedule req jobs).resp = ScheduleResp.ok ids.length ∧
      (∀ jb ∈ ids.map (mkJob req),
        jb.status = Status.pending ∧ jb.discountPercent = req.discount ∧
        jb.startTime = req.startAt ∧ jb.endTime = req.endAt) ∧
      (schedule req (schedule req jobs).jobs).jobs
        = (jobs ++ ids.map (mkJob req)) ++ ids.map (mkJob req)) := by
  refine ⟨⟨?_, ?_⟩, ?_, ?_⟩
  · rintro ⟨msg, hmsg⟩
    cases hid : req.variantIds with
    | none => exact Or.inl rfl
    | some ids =>
      cases ids with
      | nil => exact Or.inr rfl
      | cons i rest =>
        exfalso
        unfold schedule at hmsg
        rw [hid] at hmsg
        simp at hmsg
  · intro h
    rcases h with h | h
    · exact ⟨"No variant IDs provided.", by unfold schedule; rw [h]⟩
    · exact ⟨"No variant IDs provided.", by unfold schedule; rw [h]; rfl⟩
  · intro h
    rcases h with h | h
    · unfold schedule; rw [h]
    · unfold schedule; rw [h]; rfl
  · intro ids hids hne
    have hne' : ¬ ids.isEmpty = true := by simpa [List.isEmpty_iff] using hne
    have h1 : schedule req jobs
        = ⟨jobs ++ ids.map (mkJob req),
           ScheduleResp.ok (ids.map (mkJob req)).length⟩ := by
      simp [schedule, hids, hne']
    have h2 : schedule req (jobs ++ ids.map (mkJob req))
        = ⟨(jobs ++ ids.map (mkJob req)) ++ ids.map (mkJob req),
           ScheduleResp.ok (ids.map (mkJob req)).length⟩ := by
      simp [schedule, hids, hne']
    refine ⟨by rw [h1], by rw [h1]; simp, ?_, by rw [h1, h2]⟩
    intro jb hjb
    obtain ⟨i, hi, rfl⟩ := List.mem_map.1 hjb
    exact ⟨rfl, rfl, rfl, rfl⟩

/-- The C6 witness request: one variant, 15% off. -/
def reqC6 : ScheduleReq := ⟨some ["a"], 15, 0, 100⟩

/-- C6 witness: scheduling variant "a" once creates one pending job and
reports one created; re-scheduling the same variant appends a second,
independent job. -/
theorem schedule_validation_witness :
    (schedule reqC6 []).jobs = [mkJob reqC6 "a"] ∧
    (schedule reqC6 []).resp = ScheduleResp.ok 1 ∧
    (schedule reqC6 (schedule reqC6 []).jobs).jobs
      = [mkJob reqC6 "a", mkJob reqC6 "a"] := by
  have h := (schedule_validation reqC6 []).2.2 ["a"] rfl (by decide)
  refine ⟨by rw [h.1]; rfl, by rw [h.2.1]; rfl, ?_⟩
  rw [h.2.2.2]
  rfl

theorem endAllActive_ok_rel (now : Int) (F : Faults) :
    ∀ (jobs : List Job) (cat : Catalog),
      (∀ j ∈ jobs, j.status = Status.active →
        (F j).writeOutcome = WriteOutcome.ok ∧ (F j).saveFault = none ∧
          (cat j.variantId).isSome) →
      List.Forall₂
        (fun j j' =>
          (j.status = Status.active →
            j' = { j with status := Status.completed, endTime := now }) ∧
          (j.status ≠ Status.active → j' = j))
        jobs (endAllActive now F cat jobs).jobs := by
  intro jobs
  induction jobs with
  | nil => intro cat _; exact List.Forall₂.nil
  | cons j rest ih =>
    intro cat hyp
    unfold endAllActive
    by_cases hj : j.status = Status.active
    · simp only [if_pos hj]
      obtain ⟨hw, hs, hc⟩ := hyp j (List.mem_cons_self j rest) hj
      have hje : (endAllJob now cat (F j) j).err = none :=
        endAllJob_success now cat (F j) j hw hs hc
      have hcat := endAllJob_cat_isSome now cat (F j) j
      refine List.Forall₂.cons ?_ (ih _ (fun j' hj' ha => ?_))
      · rcases endAllJob_spec now cat (F j) j with ⟨hne, _⟩ | ⟨_, hjob⟩
        · exact absurd hje hne
        · exact ⟨fun _ => hjob, fun hna => absurd hj hna⟩
      · obtain ⟨hw', hs', hc'⟩ := hyp j' (List.mem_cons_of_mem j hj') ha
        exact ⟨hw', hs', by rw [hcat]; exact hc'⟩
    · simp only [if_neg hj]
      exact List.Forall₂.cons ⟨fun ha => absurd ha hj, fun _ => rfl⟩
        (ih _ (fun j' hj' ha => hyp j' (List.mem_cons_of_mem j hj') ha))

theorem cancelPending_active_countP (jobs : List Job) :
    (cancelPending jobs).1.countP (fun j => j.status == Status.active)
      = jobs.countP (fun j => j.status == Status.active) := by
  unfold cancelPending
  rw [List.countP_map]
  apply List.countP_congr
  intro a _
  by_cases hp : a.status = Status.pending
  · simp [Function.comp, hp]
  · simp [Function.comp, hp]

theorem cancelPending_active_keeps (jobs : List Job) :
    ∀ j' ∈ (cancelPending jobs).1, j'.status = Status.active →
      j' ∈ jobs ∧ j'.status = Status.active := by
  intro j' hj' ha
  unfold cancelPending at hj'
  obtain ⟨j, hj, rfl⟩ := List.mem_map.1 hj'
  by_cases hp : j.status = Status.pending
  · exfalso
    rw [if_pos hp] at ha
    simp at ha
  · rw [if_neg hp] at ha ⊢
    exact ⟨hj, ha⟩

/-- C7: the emergency stop bulk-transitions every pending job directly to
completed (via the single `updateMany`, which never touches the price
store: with no active jobs the catalog is unchanged) and reverts every
active job, setting it completed.  When every active job's price-store
write and record save succeed, it reports `cancelled_future_jobs` = number
of pending jobs and `reverted_active_jobs` = number of active jobs with no
errors, and every record that was pending or active ends completed while
completed records stay untouched. -/
theorem endAll_spec (now : Int) (F : Faults) (cat : Catalog) (jobs : List Job)
    (hW : ∀ j ∈ jobs, j.status = Status.active →
      (F j).writeOutcome = WriteOutcome.ok ∧ (F j).saveFault = none ∧
        (cat j.variantId).isSome) :
    (endAll now F cat jobs).log.cancelled_future_jobs
        = jobs.countP (fun j => j.status == Status.pending) ∧
    (endAll now F cat jobs).log.reverted_active_jobs
        = jobs.countP (fun j => j.status == Status.active) ∧
    (endAll now F cat jobs).log.errors = [] ∧
    List.Forall₂
      (fun j j' =>
        ((j.status = Status.pending ∨ j.status = Status.active) →
          j'.status = Status.completed) ∧
        (j.status = Status.completed → j' = j))
      jobs (endAll now F cat jobs).jobs ∧
    ((∀ j ∈ jobs, j.status ≠ Status.active) →
      (endAll now F cat jobs).cat = cat) := by
  have hW1 : ∀ j' ∈ (cancelPending jobs).1, j'.status = Status.active →
      (F j').writeOutcome = WriteOutcome.ok ∧ (F j').saveFault = none ∧
        (cat j'.variantId).isSome := by
    intro j' hj' ha
    obtain ⟨hmem, ha'⟩ := cancelPending_active_keeps jobs j' hj' ha
    exact hW j' hmem ha'
  have hok := endAllActive_ok now F (cancelPending jobs).1 cat hW1
  refine ⟨cancelPending_count jobs, ?_, hok.2.1, ?_, ?_⟩
  · calc (endAllActive now F cat (cancelPending jobs).1).log.reverted_active_jobs
        = (cancelPending jobs).1.countP (fun j => j.status == Status.active) :=
          hok.1
      _ = jobs.countP (fun j => j.status == Status.active) :=
          cancelPending_active_countP jobs
  · have hrel1 := cancelPending_rel jobs
    have hrel2 := endAllActive_ok_rel now F (cancelPending jobs).1 cat hW1
    refine forall2_comp (fun a b c hab hbc => ?_) hrel1 hrel2
    rcases hab with ⟨hpend, rfl⟩ | ⟨hnp, rfl⟩
    · have hcb : ({ a with status := Status.completed } : Job).status
          ≠ Status.active := by simp
      have hc := hbc.2 hcb
      constructor
      · intro _
        rw [hc]
      · intro hcomp
        rw [hpend] at hcomp
        cases hcomp
    · cases hsa : b.status with
      | pending => exact absurd hsa hnp
      | active =>
        have hc := hbc.1 hsa
        exact ⟨fun _ => by rw [hc], fun hcomp => by cases hcomp⟩
      | completed =>
        have hc := hbc.2 (by rw [hsa]; simp)
        refine ⟨fun hpa => ?_, fun _ => hc⟩
        rcases hpa with hp | hp <;> cases hp
  · intro hna
    have hna1 : ∀ j' ∈ (cancelPending jobs).1, j'.status ≠ Status.active := by
      intro j' hj' ha
      obtain ⟨hmem, ha'⟩ := cancelPending_active_keeps jobs j' hj' ha
      exact hna j' hmem ha'
    exact endAllActive_cat_inactive now F (cancelPending jobs).1 cat hna1

/-- The catalog for the C7 witness: the two active jobs' variants exist. -/
def catC7 : Catalog := fun k =>
  if k = "a1" then some ⟨⟨false, 100, 2⟩, none⟩
  else if k = "a2" then some ⟨⟨false, 200, 2⟩, some ⟨false, 300, 2⟩⟩
  else none

/-- The C7 witness store: 3 pending and 2 active jobs. -/
def jobsC7 : List Job :=
  [⟨"p1", none, 10, none, 0, 10, Status.pending⟩,
   ⟨"p2", none, 10, none, 0, 10, Status.pending⟩,
   ⟨"p3", none, 10, none, 0, 10, Status.pending⟩,
   ⟨"a1", some ⟨false, 150, 2⟩, 10, none, 0, 10, Status.active⟩,
   ⟨"a2", some ⟨false, 250, 2⟩, 10, some ⟨false, 300, 2⟩, 0, 10, Status.active⟩]

/-- C7 witness: on the 3-pending/2-active store with all writes
succeeding, `cancelled_future_jobs = 3`, `reverted_active_jobs = 2`, no
errors, and all five records end completed. -/
theorem endAll_spec_witness :
    (endAll 99 healthy catC7 jobsC7).log.cancelled_future_jobs = 3 ∧
    (endAll 99 healthy catC7 jobsC7).log.reverted_active_jobs = 2 ∧
    (endAll 99 healthy catC7 jobsC7).log.errors = [] ∧
    ((endAll 99 healthy catC7 jobsC7).jobs.all
      (fun j => j.status == Status.completed)) = true := by
  have h := endAll_spec 99 healthy catC7 jobsC7 (by decide)
  refine ⟨?_, ?_, h.2.2.1, by decide⟩
  · rw [h.1]
    decide
  · rw [h.2.1]
    decide

/-- The catalog for the C8 claim: variant "v8" exists. -/
def catC8 : Catalog := fun k => if k = "v8" then some ⟨⟨false, 100, 2⟩, none⟩ else none

/-- The C8 job: active with captured originalPrice "99.99" and endTime 50. -/
def jobC8 : Job := ⟨"v8", some ⟨false, 9999, 2⟩, 10, none, 0, 50, Status.active⟩

/-- C8 counterexample: against a healthy store both the end-all revert at
time 77 and the Pass B revert succeed on the same active job, yet the
resulting records are NOT identical — end-all additionally overwrites the
job's `endTime` with the stop time. -/
theorem endAll_passB_record_counter :
    (endAllJob 77 catC8 noFault jobC8).err = none ∧
    (passBJob catC8 noFault jobC8).err = none ∧
    (endAllJob 77 catC8 noFault jobC8).job ≠ (passBJob catC8 noFault jobC8).job ∧
    (endAllJob 77 catC8 noFault jobC8).job.endTime = 77 ∧
    (passBJob catC8 noFault jobC8).job.endTime = 50 := by
  decide

/-- C8 (amended): the emergency-stop revert of an active job issues the
identical price-store write as Pass B (the same `revertWriteReq` body,
hence the identical catalog effect in every fault scenario); when it
succeeds it produces the same record as Pass B except that it additionally
overwrites `endTime` with the stop time; and on a non-2xx price-store
response it raises and records a per-job error leaving the record
unchanged, whereas Pass B ignores the response status and marks the job
completed without recording anything. -/
theorem endAll_refines_passB (now : Int) (cat : Catalog) (f : FaultSpec)
    (j : Job) :
    (endAllJob now cat f j).cat = (passBJob cat f j).cat ∧
    ((endAllJob now cat f j).err = none →
      (passBJob cat f j).err = none ∧
      (endAllJob now cat f j).job = { (passBJob cat f j).job with endTime := now }) ∧
    (∀ code, f.writeOutcome = WriteOutcome.rejected code → f.saveFault = none →
      (endAllJob now cat f j).err
          = some ("Shopify API responded with " ++ toString code) ∧
      (endAllJob now cat f j).job = j ∧
      (passBJob cat f j).err = none ∧
      (passBJob cat f j).job = { j with status := Status.completed }) := by
  refine ⟨endAllJob_cat_eq now cat f j, ?_, ?_⟩
  · intro he
    cases hw : f.writeOutcome with
    | netFail m =>
      exfalso
      unfold endAllJob writeVariant at he
      rw [hw] at he
      simp at he
    | rejected code =>
      exfalso
      unfold endAllJob writeVariant at he
      rw [hw] at he
      simp at he
    | ok =>
      cases hc : cat j.variantId with
      | none =>
        exfalso
        unfold endAllJob writeVariant at he
        rw [hw, hc] at he
        simp at he
      | some v =>
        cases hs : f.saveFault with
        | some m =>
          exfalso
          unfold endAllJob writeVariant at he
          rw [hw, hc] at he
          simp [hs] at he
        | none =>
          constructor
          · unfold passBJob writeVariant
            rw [hw, hc]
            simp [hs]
          · unfold endAllJob passBJob writeVariant
            rw [hw, hc]
            simp [hs]
  · intro code hw hs
    refine ⟨?_, ?_, ?_, ?_⟩
    · unfold endAllJob writeVariant
      rw [hw]
    · unfold endAllJob writeVariant
      rw [hw]
    · unfold passBJob writeVariant
      rw [hw]
      simp [hs]
    · unfold passBJob writeVariant
      rw [hw]
      simp [hs]

/-- A rejected (non-2xx) PUT response for the C8 witness. -/
def fRejC8 : FaultSpec := ⟨none, WriteOutcome.rejected 500, none⟩

/-- C8 witness: on a 500 price-store response, end-all records the per-job
error and leaves the record active, while Pass B marks it completed. -/
theorem endAll_refines_passB_witness :
    (endAllJob 77 catC8 fRejC8 jobC8).job = jobC8 ∧
    (passBJob catC8 fRejC8 jobC8).job = { jobC8 with status := Status.completed } ∧
    (endAllJob 77 catC8 fRejC8 jobC8).err
      = some ("Shopify API responded with " ++ toString 500) := by
  have h := (endAll_refines_passB 77 catC8 fRejC8 jobC8).2.2 500 rfl rfl
  exact ⟨h.2.1, h.2.2.2, h.1⟩

/-- C9: across every operation of the system — a cron tick (both passes),
the emergency stop, and the Schedule API — job statuses only move forward
along pending → active → completed (including the direct pending →
completed cancellation); no operation moves a status backward, and the
Schedule API only appends fresh pending records, leaving existing records
untouched.  (That no status outside the three-value enum is ever stored is
carried by the `Status` type itself, the embedding of the schema enum.) -/
theorem status_forward_only :
    (∀ (now : Int) (F : Faults) (cat : Catalog) (jobs : List Job),
      List.Forall₂ (fun j j' => statusLe j.status j'.status)
        jobs (tick now F cat jobs).jobs) ∧
    (∀ (now : Int) (F : Faults) (cat : Catalog) (jobs : List Job),
      List.Forall₂ (fun j j' => statusLe j.status j'.status)
        jobs (endAll now F cat jobs).jobs) ∧
    (∀ (req : ScheduleReq) (jobs : List Job),
      ∃ nw, (schedule req jobs).jobs = jobs ++ nw ∧
        ∀ j ∈ nw, j.status = Status.pending) := by
  refine ⟨?_, ?_, ?_⟩
  · intro now F cat jobs
    have hA : ∀ (a b : Job),
        (b = a ∨ (a.status = Status.pending ∧ b.status = Status.active)) →
        statusLe a.status b.status := by
      intro a b h
      rcases h with rfl | ⟨ha, hb⟩
      · exact Nat.le_refl _
      · rw [ha, hb]
        decide
    have hB : ∀ (a b : Job),
        (b = a ∨ (a.status = Status.active ∧ b.status = Status.completed)) →
        statusLe a.status b.status := by
      intro a b h
      rcases h with rfl | ⟨ha, hb⟩
      · exact Nat.le_refl _
      · rw [ha, hb]
        decide
    exact forall2_comp
      (fun a b c hab hbc => Nat.le_trans (hA a b hab) (hB b c hbc))
      (passAList_rel now F jobs cat 20)
      (passBList_rel now F (passAList now F cat 20 jobs).jobs
        (passAList now F cat 20 jobs).cat 20)
  · intro now F cat jobs
    have hC : ∀ (a b : Job),
        ((a.status = Status.pending ∧ b = { a with status := Status.completed }) ∨
          (a.status ≠ Status.pending ∧ b = a)) →
        statusLe a.status b.status := by
      intro a b h
      rcases h with ⟨ha, rfl⟩ | ⟨_, rfl⟩
      · rw [ha]
        exact (by decide : statusLe Status.pending Status.completed)
      · exact Nat.le_refl _
    have hD : ∀ (a b : Job),
        (b = a ∨ (a.status = Status.active ∧
          b = { a with status := Status.completed, endTime := now })) →
        statusLe a.status b.status := by
      intro a b h
      rcases h with rfl | ⟨ha, rfl⟩
      · exact Nat.le_refl _
      · rw [ha]
        exact (by decide : statusLe Status.active Status.completed)
    exact forall2_comp
      (fun a b c hab hbc => Nat.le_trans (hC a b hab) (hD b c hbc))
      (cancelPending_rel jobs)
      (endAllActive_rel now F (cancelPending jobs).1 cat)
  · intro req jobs
    cases hid : req.variantIds with
    | none =>
      refine ⟨[], ?_, by simp⟩
      unfold schedule
      rw [hid]
      simp
    | some ids =>
      by_cases hemp : ids.isEmpty = true
      · refine ⟨[], ?_, by simp⟩
        unfold schedule
        rw [hid]
        simp [hemp]
      · refine ⟨ids.map (mkJob req), ?_, ?_⟩
        · unfold schedule
          rw [hid]
          simp [hemp]
        · intro j hj
          obtain ⟨i, _, rfl⟩ := List.mem_map.1 hj
          rfl

/-- C9 witness: a tick over a concrete one-job store only moves the
status forward. -/
theorem status_forward_only_witness :
    List.Forall₂ (fun j j' => statusLe j.status j'.status)
      [jobC8] (tick 77 healthy catC8 [jobC8]).jobs :=
  status_forward_only.1 77 healthy catC8 [jobC8]

theorem passAList_nil (now : Int) (F : Faults) (cat : Catalog) (b : Nat) :
    passAList now F cat b [] = ⟨cat, [], 0, []⟩ := rfl

theorem passAList_cons_sel (now : Int) (F : Faults) (cat : Catalog) (b : Nat)
    (j : Job) (rest : List Job)
    (h : j.startTime ≤ now ∧ j.status = Status.pending ∧ 0 < b) :
    passAList now F cat b (j :: rest)
      = ⟨(passAList now F (passAJob cat (F j) j).cat (b - 1) rest).cat,
         (passAJob cat (F j) j).job
           :: (passAList now F (passAJob cat (F j) j).cat (b - 1) rest).jobs,
         (if (passAJob cat (F j) j).err = none then 1 else 0)
           + (passAList now F (passAJob cat (F j) j).cat (b - 1) rest).count,
         (passAJob cat (F j) j).err.toList
           ++ (passAList now F (passAJob cat (F j) j).cat (b - 1) rest).errors⟩ := by
  conv_lhs => unfold passAList
  rw [if_pos h]

theorem passBList_nil (now : Int) (F : Faults) (cat : Catalog) (b : Nat) :
    passBList now F cat b [] = ⟨cat, [], 0, []⟩ := rfl

theorem passBList_cons_sel (now : Int) (F : Faults) (cat : Catalog) (b : Nat)
    (j : Job) (rest : List Job)
    (h : j.endTime ≤ now ∧ j.status = Status.active ∧ 0 < b) :
    passBList now F cat b (j :: rest)
      = ⟨(passBList now F (passBJob cat (F j) j).cat (b - 1) rest).cat,
         (passBJob cat (F j) j).job
           :: (passBList now F (passBJob cat (F j) j).cat (b - 1) rest).jobs,
         (if (passBJob cat (F j) j).err = none then 1 else 0)
           + (passBList now F (passBJob cat (F j) j).cat (b - 1) rest).count,
         (passBJob cat (F j) j).err.toList
           ++ (passBList now F (passBJob cat (F j) j).cat (b - 1) rest).errors⟩ := by
  conv_lhs => unfold passBList
  rw [if_pos h]

theorem passAList_cons_nonsel (now : Int) (F : Faults) (cat : Catalog)
    (b : Nat) (j : Job) (rest : List Job)
    (h : ¬(j.startTime ≤ now ∧ j.status = Status.pending ∧ 0 < b)) :
    passAList now F cat b (j :: rest)
      = ⟨(passAList now F cat b rest).cat,
         j :: (passAList now F cat b rest).jobs,
         (passAList now F cat b rest).count,
         (passAList now F cat b rest).errors⟩ := by
  conv_lhs => unfold passAList
  rw [if_neg h]

theorem passBList_cons_nonsel (now : Int) (F : Faults) (cat : Catalog)
    (b : Nat) (j : Job) (rest : List Job)
    (h : ¬(j.endTime ≤ now ∧ j.status = Status.active ∧ 0 < b)) :
    passBList now F cat b (j :: rest)
      = ⟨(passBList now F cat b rest).cat,
         j :: (passBList now F cat b rest).jobs,
         (passBList now F cat b rest).count,
         (passBList now F cat b rest).errors⟩ := by
  conv_lhs => unfold passBList
  rw [if_neg h]

theorem passAJob_cat_isSome (cat : Catalog) (f : FaultSpec) (j : Job)
    (k : String) : (((passAJob cat f j).cat) k).isSome = (cat k).isSome := by
  unfold passAJob readVariant writeVariant
  cases f.readFault with
  | some m => rfl
  | none =>
    cases hc : cat j.variantId with
    | none => rfl
    | some v =>
      cases f.writeOutcome with
      | netFail m => rfl
      | rejected c => cases f.saveFault <;> rfl
      | ok =>
        cases f.saveFault <;>
          · by_cases hk : k = j.variantId
            · simp [hk, hc]
            · simp [hk]

theorem passAJob_cat_frame (cat : Catalog) (f : FaultSpec) (j : Job)
    (k : String) (hk : k ≠ j.variantId) :
    (passAJob cat f j).cat k = cat k := by
  unfold passAJob readVariant writeVariant
  cases f.readFault with
  | some m => rfl
  | none =>
    cases hc : cat j.variantId with
    | none => rfl
    | some v =>
      cases f.writeOutcome with
      | netFail m => rfl
      | rejected c => cases f.saveFault <;> rfl
      | ok => cases f.saveFault <;> simp [hk]

theorem passBJob_cat_isSome (cat : Catalog) (f : FaultSpec) (j : Job)
    (k : String) : (((passBJob cat f j).cat) k).isSome = (cat k).isSome := by
  unfold passBJob writeVariant
  cases f.writeOutcome with
  | netFail m => rfl
  | rejected c => cases f.saveFault <;> rfl
  | ok =>
    cases hc : cat j.variantId with
    | none => cases f.saveFault <;> rfl
    | some v =>
      cases f.saveFault <;>
        · by_cases hk : k = j.variantId
          · simp [hk, hc]
          · simp [hk]

theorem passBJob_cat_frame (cat : Catalog) (f : FaultSpec) (j : Job)
    (k : String) (hk : k ≠ j.variantId) :
    (passBJob cat f j).cat k = cat k := by
  unfold passBJob writeVariant
  cases f.writeOutcome with
  | netFail m => rfl
  | rejected c => cases f.saveFault <;> rfl
  | ok =>
    cases hc : cat j.variantId with
    | none => cases f.saveFault <;> rfl
    | some v => cases f.saveFault <;> simp [hk]

theorem passAList_cat_isSome (now : Int) (F : Faults) :
    ∀ (jobs : List Job) (cat : Catalog) (b : Nat) (k : String),
      (((passAList now F cat b jobs).cat) k).isSome = (cat k).isSome := by
  intro jobs
  induction jobs with
  | nil => intro cat b k; rfl
  | cons j rest ih =>
    intro cat b k
    unfold passAList
    by_cases h : j.startTime ≤ now ∧ j.status = Status.pending ∧ 0 < b
    · simp only [if_pos h]
      exact (ih (passAJob cat (F j) j).cat (b - 1) k).trans
        (passAJob_cat_isSome cat (F j) j k)
    · simp only [if_neg h]
      exact ih cat b k

theorem passAList_cat_frame (now : Int) (F : Faults) :
    ∀ (jobs : List Job) (cat : Catalog) (b : Nat) (k : String),
      (∀ a ∈ jobs, a.variantId ≠ k) →
      (passAList now F cat b jobs).cat k = cat k := by
  intro jobs
  induction jobs with
  | nil => intro cat b k _; rfl
  | cons j rest ih =>
    intro cat b k hne
    unfold passAList
    by_cases h : j.startTime ≤ now ∧ j.status = Status.pending ∧ 0 < b
    · simp only [if_pos h]
      exact (ih (passAJob cat (F j) j).cat (b - 1) k
          (fun a ha => hne a (List.mem_cons_of_mem j ha))).trans
        (passAJob_cat_frame cat (F j) j k
          (Ne.symm (hne j (List.mem_cons_self j rest))))
    · simp only [if_neg h]
      exact ih cat b k (fun a ha => hne a (List.mem_cons_of_mem j ha))

theorem passBList_cat_frame (now : Int) (F : Faults) :
    ∀ (jobs : List Job) (cat : Catalog) (b : Nat) (k : String),
      (∀ a ∈ jobs, a.variantId ≠ k) →
      (passBList now F cat b jobs).cat k = cat k := by
  intro jobs
  induction jobs with
  | nil => intro cat b k _; rfl
  | cons j rest ih =>
    intro cat b k hne
    unfold passBList
    by_cases h : j.endTime ≤ now ∧ j.status = Status.active ∧ 0 < b
    · simp only [if_pos h]
      exact (ih (passBJob cat (F j) j).cat (b - 1) k
          (fun a ha => hne a (List.mem_cons_of_mem j ha))).trans
        (passBJob_cat_frame cat (F j) j k
          (Ne.symm (hne j (List.mem_cons_self j rest))))
    · simp only [if_neg h]
      exact ih cat b k (fun a ha => hne a (List.mem_cons_of_mem j ha))

theorem passAJob_healthy_err (cat : Catalog) (j : Job)
    (hc : (cat j.variantId).isSome) : (passAJob cat noFault j).err = none := by
  obtain ⟨v, hv⟩ := Option.isSome_iff_exists.1 hc
  rw [passAJob_healthy cat j v hv]

theorem passBJob_healthy_step (cat : Catalog) (j : Job) :
    (passBJob cat noFault j).err = none ∧
    (passBJob cat noFault j).job = { j with status := Status.completed } := by
  cases hc : cat j.variantId with
  | none =>
    rw [passBJob_noFault_missing cat j hc]
    exact ⟨rfl, rfl⟩
  | some v =>
    rw [passBJob_healthy cat j v hc]
    exact ⟨rfl, rfl⟩

theorem passAList_healthy_full (now : Int) :
    ∀ (jobs : List Job) (cat : Catalog) (b : Nat),
      jobs.countP (startDue now) ≤ b →
      (∀ a ∈ jobs, startDue now a = true → (cat a.variantId).isSome) →
      (passAList now healthy cat b jobs).count = jobs.countP (startDue now) ∧
      (passAList now healthy cat b jobs).errors = [] ∧
      List.Forall₂ (fun a a' =>
          a'.variantId = a.variantId ∧ a'.endTime = a.endTime ∧
          (startDue now a = false → a' = a) ∧
          (startDue now a = true → a'.status = Status.active))
        jobs (passAList now healthy cat b jobs).jobs := by
  intro jobs
  induction jobs with
  | nil =>
    intro cat b _ _
    exact ⟨rfl, rfl, List.Forall₂.nil⟩
  | cons j rest ih =>
    intro cat b hcount hvar
    by_cases hsel : j.startTime ≤ now ∧ j.status = Status.pending ∧ 0 < b
    · have hjdue : startDue now j = true := by
        simp [startDue, hsel.1, hsel.2.1]
      have hcv : (cat j.variantId).isSome :=
        hvar j (List.mem_cons_self j rest) hjdue
      have herr : (passAJob cat (healthy j) j).err = none :=
        passAJob_healthy_err cat j hcv
      have hc2 : (j :: rest).countP (startDue now)
          = rest.countP (startDue now) + 1 := by
        simp [List.countP_cons, hjdue]
      have hcount' : rest.countP (startDue now) ≤ b - 1 := by omega
      have hvar' : ∀ a ∈ rest, startDue now a = true →
          (((passAJob cat (healthy j) j).cat) a.variantId).isSome := by
        intro a ha hd
        rw [passAJob_cat_isSome]
        exact hvar a (List.mem_cons_of_mem j ha) hd
      obtain ⟨ihc, ihe, ihr⟩ :=
        ih (passAJob cat (healthy j) j).cat (b - 1) hcount' hvar'
      rw [passAList_cons_sel now healthy cat b j rest hsel]
      refine ⟨?_, ?_, ?_⟩
      · show (if (passAJob cat (healthy j) j).err = none then 1 else 0)
            + (passAList now healthy (passAJob cat (healthy j) j).cat
                (b - 1) rest).count
          = (j :: rest).countP (startDue now)
        rw [if_pos herr, ihc, hc2]
        omega
      · show (passAJob cat (healthy j) j).err.toList
            ++ (passAList now healthy (passAJob cat (healthy j) j).cat
                (b - 1) rest).errors
          = []
        rw [herr, ihe]
        rfl
      · show List.Forall₂ _ (j :: rest)
            ((passAJob cat (healthy j) j).job
              :: (passAList now healthy (passAJob cat (healthy j) j).cat
                  (b - 1) rest).jobs)
        refine List.Forall₂.cons ?_ ihr
        rcases passAJob_spec cat (healthy j) j with ⟨hne, _⟩ | ⟨_, v, _, hjob⟩
        · exact absurd herr hne
        · rw [hjob]
          exact ⟨rfl, rfl,
            fun hf => absurd (hjdue.symm.trans hf) (by decide),
            fun _ => rfl⟩
    · have hjdue : startDue now j = false := by
        cases hx : startDue now j with
        | false => rfl
        | true =>
          exfalso
          have hm2 : j.startTime ≤ now ∧ j.status = Status.pending := by
            simpa [startDue] using hx
          have hb : b = 0 := by
            by_contra hb0
            exact hsel ⟨hm2.1, hm2.2, Nat.pos_of_ne_zero hb0⟩
          rw [hb] at hcount
          have h1 : 0 < (j :: rest).countP (startDue now) :=
            List.countP_pos_iff.2 ⟨j, List.mem_cons_self j rest, hx⟩
          omega
      have hc2 : (j :: rest).countP (startDue now)
          = rest.countP (startDue now) := by
        simp [List.countP_cons, hjdue]
      have hcount' : rest.countP (startDue now) ≤ b := by omega
      obtain ⟨ihc, ihe, ihr⟩ := ih cat b hcount'
        (fun a ha hd => hvar a (List.mem_cons_of_mem j ha) hd)
      rw [passAList_cons_nonsel now healthy cat b j rest hsel]
      refine ⟨?_, ihe, ?_⟩
      · show (passAList now healthy cat b rest).count
          = (j :: rest).countP (startDue now)
        rw [ihc, hc2]
      · show List.Forall₂ _ (j :: rest)
            (j :: (passAList now healthy cat b rest).jobs)
        exact List.Forall₂.cons
          ⟨rfl, rfl, fun _ => rfl,
           fun ht => absurd (hjdue.symm.trans ht) (by decide)⟩ ihr

theorem passBList_healthy_full (now : Int) :
    ∀ (jobs : List Job) (cat : Catalog) (b : Nat),
      jobs.countP (endDue now) ≤ b →
      (passBList now healthy cat b jobs).count = jobs.countP (endDue now) ∧
      (passBList now healthy cat b jobs).errors = [] ∧
      List.Forall₂ (fun a a' =>
          (endDue now a = false → a' = a) ∧
          (endDue now a = true → a' = { a with status := Status.completed }))
        jobs (passBList now healthy cat b jobs).jobs := by
  intro jobs
  induction jobs with
  | nil =>
    intro cat b _
    exact ⟨rfl, rfl, List.Forall₂.nil⟩
  | cons j rest ih =>
    intro cat b hcount
    by_cases hsel : j.endTime ≤ now ∧ j.status = Status.active ∧ 0 < b
    · have hjdue : endDue now j = true := by
        simp [endDue, hsel.1, hsel.2.1]
      have herr : (passBJob cat (healthy j) j).err = none :=
        (passBJob_healthy_step cat j).1
      have hjob : (passBJob cat (healthy j) j).job
          = { j with status := Status.completed } :=
        (passBJob_healthy_step cat j).2
      have hc2 : (j :: rest).countP (endDue now)
          = rest.countP (endDue now) + 1 := by
        simp [List.countP_cons, hjdue]
      have hcount' : rest.countP (endDue now) ≤ b - 1 := by omega
      obtain ⟨ihc, ihe, ihr⟩ :=
        ih (passBJob cat (healthy j) j).cat (b - 1) hcount'
      rw [passBList_cons_sel now healthy cat b j rest hsel]
      refine ⟨?_, ?_, ?_⟩
      · show (if (passBJob cat (healthy j) j).err = none then 1 else 0)
            + (passBList now healthy (passBJob cat (healthy j) j).cat
                (b - 1) rest).count
          = (j :: rest).countP (endDue now)
        rw [if_pos herr, ihc, hc2]
        omega
      · show (passBJob cat (healthy j) j).err.toList
            ++ (passBList now healthy (passBJob cat (healthy j) j).cat
                (b - 1) rest).errors
          = []
        rw [herr, ihe]
        rfl
      · show List.Forall₂ _ (j :: rest)
            ((passBJob cat (healthy j) j).job
              :: (passBList now healthy (passBJob cat (healthy j) j).cat
                  (b - 1) rest).jobs)
        refine List.Forall₂.cons ?_ ihr
        rw [hjob]
        exact ⟨fun hf => absurd (hjdue.symm.trans hf) (by decide),
          fun _ => rfl⟩
    · have hjdue : endDue now j = false := by
        cases hx : endDue now j with
        | false => rfl
        | true =>
          exfalso
          have hm2 : j.endTime ≤ now ∧ j.status = Status.active := by
            simpa [endDue] using hx
          have hb : b = 0 := by
            by_contra hb0
            exact hsel ⟨hm2.1, hm2.2, Nat.pos_of_ne_zero hb0⟩
          rw [hb] at hcount
          have h1 : 0 < (j :: rest).countP (endDue now) :=
            List.countP_pos_iff.2 ⟨j, List.mem_cons_self j rest, hx⟩
          omega
      have hc2 : (j :: rest).countP (endDue now)
          = rest.countP (endDue now) := by
        simp [List.countP_cons, hjdue]
      have hcount' : rest.countP (endDue now) ≤ b := by omega
      obtain ⟨ihc, ihe, ihr⟩ := ih cat b hcount'
      rw [passBList_cons_nonsel now healthy cat b j rest hsel]
      refine ⟨?_, ihe, ?_⟩
      · show (passBList now healthy cat b rest).count
          = (j :: rest).countP (endDue now)
        rw [ihc, hc2]
      · show List.Forall₂ _ (j :: rest)
            (j :: (passBList now healthy cat b rest).jobs)
        exact List.Forall₂.cons
          ⟨fun _ => rfl,
           fun ht => absurd (hjdue.symm.trans ht) (by decide)⟩ ihr

theorem forall2_mem_left {α β : Type} {R : α → β → Prop} :
    ∀ {l1 : List α} {l2 : List β}, List.Forall₂ R l1 l2 →
      ∀ a ∈ l1, ∃ b ∈ l2, R a b := by
  intro l1 l2 h
  induction h with
  | nil => intro a ha; exact absurd ha (List.not_mem_nil a)
  | cons hab htail ih =>
    intro a ha
    rcases List.mem_cons.1 ha with rfl | ha2
    · exact ⟨_, List.mem_cons_self _ _, hab⟩
    · obtain ⟨b, hb, hr⟩ := ih a ha2
      exact ⟨b, List.mem_cons_of_mem _ hb, hr⟩

theorem forall2_mem_right {α β : Type} {R : α → β → Prop} :
    ∀ {l1 : List α} {l2 : List β}, List.Forall₂ R l1 l2 →
      ∀ b ∈ l2, ∃ a ∈ l1, R a b := by
  intro l1 l2 h
  induction h with
  | nil => intro b hb; exact absurd hb (List.not_mem_nil b)
  | cons hab htail ih =>
    intro b hb
    rcases List.mem_cons.1 hb with rfl | hb2
    · exact ⟨_, List.mem_cons_self _ _, hab⟩
    · obtain ⟨a, ha, hr⟩ := ih b hb2
      exact ⟨a, List.mem_cons_of_mem _ ha, hr⟩

theorem passAList_variantId (now : Int) (F : Faults) :
    ∀ (jobs : List Job) (cat : Catalog) (b : Nat),
      List.Forall₂ (fun a a' => a'.variantId = a.variantId)
        jobs (passAList now F cat b jobs).jobs := by
  intro jobs
  induction jobs with
  | nil => intro cat b; exact List.Forall₂.nil
  | cons j rest ih =>
    intro cat b
    unfold passAList
    by_cases h : j.startTime ≤ now ∧ j.status = Status.pending ∧ 0 < b
    · simp only [if_pos h]
      refine List.Forall₂.cons ?_ (ih (passAJob cat (F j) j).cat (b - 1))
      rcases passAJob_spec cat (F j) j with ⟨_, hj⟩ | ⟨_, v, _, hj⟩ <;>
        rw [hj]
    · simp only [if_neg h]
      exact List.Forall₂.cons rfl (ih cat b)

theorem passAList_at_job (now : Int) :
    ∀ (pre : List Job) (j : Job) (post : List Job) (cat : Catalog) (b : Nat)
      (v : Variant),
      (pre ++ j :: post).countP (startDue now) ≤ b →
      startDue now j = true →
      cat j.variantId = some v →
      (∀ a ∈ pre, a.variantId ≠ j.variantId) →
      ∃ preA postA,
        (passAList now healthy cat b (pre ++ j :: post)).jobs
          = preA ++ { j with
              originalPrice := some (toFixed2 v.price.val),
              originalCompareAt := v.compare_at_price,
              status := Status.active } :: postA ∧
        List.Forall₂ (fun a a' => a'.variantId = a.variantId) post postA := by
  intro pre
  induction pre with
  | nil =>
    intro j post cat b v hcount hdue hv _
    have hm2 : j.startTime ≤ now ∧ j.status = Status.pending := by
      simpa [startDue] using hdue
    have hb : 0 < b := by
      have h1 : 0 < (j :: post).countP (startDue now) :=
        List.countP_pos_iff.2 ⟨j, List.mem_cons_self j post, hdue⟩
      rw [List.nil_append] at hcount
      omega
    refine ⟨[], (passAList now healthy
        (passAJob cat (healthy j) j).cat (b - 1) post).jobs, ?_, ?_⟩
    · rw [List.nil_append,
        passAList_cons_sel now healthy cat b j post ⟨hm2.1, hm2.2, hb⟩]
      show (passAJob cat (healthy j) j).job
            :: (passAList now healthy (passAJob cat (healthy j) j).cat
                (b - 1) post).jobs
          = _
      rw [show healthy j = noFault from rfl, passAJob_healthy cat j v hv]
      all_goals rfl
    · exact passAList_variantId now healthy post
        (passAJob cat (healthy j) j).cat (b - 1)
  | cons a pre2 ih =>
    intro j post cat b v hcount hdue hv hpre
    have hane : a.variantId ≠ j.variantId := hpre a (List.mem_cons_self a pre2)
    have hmemj : j ∈ (a :: pre2) ++ j :: post := by simp
    by_cases hsel : a.startTime ≤ now ∧ a.status = Status.pending ∧ 0 < b
    · have hadue : startDue now a = true := by
        simp [startDue, hsel.1, hsel.2.1]
      have hc2 : ((a :: pre2) ++ j :: post).countP (startDue now)
          = (pre2 ++ j :: post).countP (startDue now) + 1 := by
        simp [List.countP_cons, hadue]
      have hcount' : (pre2 ++ j :: post).countP (startDue now) ≤ b - 1 := by
        omega
      have hv2 : (passAJob cat (healthy a) a).cat j.variantId = some v := by
        rw [passAJob_cat_frame cat (healthy a) a j.variantId (Ne.symm hane)]
        exact hv
      obtain ⟨preA, postA, hjobs, hrel⟩ :=
        ih j post (passAJob cat (healthy a) a).cat (b - 1) v hcount' hdue hv2
          (fun x hx => hpre x (List.mem_cons_of_mem a hx))
      refine ⟨(passAJob cat (healthy a) a).job :: preA, postA, ?_, hrel⟩
      rw [List.cons_append,
        passAList_cons_sel now healthy cat b a (pre2 ++ j :: post) hsel]
      show (passAJob cat (healthy a) a).job
            :: (passAList now healthy (passAJob cat (healthy a) a).cat
                (b - 1) (pre2 ++ j :: post)).jobs
          = _
      rw [hjobs]
      all_goals rfl
    · have hb : 0 < b := by
        have h1 : 0 < ((a :: pre2) ++ j :: post).countP (startDue now) :=
          List.countP_pos_iff.2 ⟨j, hmemj, hdue⟩
        omega
      have hadue : startDue now a = false := by
        cases hx : startDue now a with
        | false => rfl
        | true =>
          exfalso
          have hm2 : a.startTime ≤ now ∧ a.status = Status.pending := by
            simpa [startDue] using hx
          exact hsel ⟨hm2.1, hm2.2, hb⟩
      have hc2 : ((a :: pre2) ++ j :: post).countP (startDue now)
          = (pre2 ++ j :: post).countP (startDue now) := by
        simp [List.countP_cons, hadue]
      have hcount' : (pre2 ++ j :: post).countP (startDue now) ≤ b := by
        omega
      obtain ⟨preA, postA, hjobs, hrel⟩ :=
        ih j post cat b v hcount' hdue hv
          (fun x hx => hpre x (List.mem_cons_of_mem a hx))
      refine ⟨a :: preA, postA, ?_, hrel⟩
      rw [List.cons_append,
        passAList_cons_nonsel now healthy cat b a (pre2 ++ j :: post) hsel]
      show a :: (passAList now healthy cat b (pre2 ++ j :: post)).jobs = _
      rw [hjobs]
      all_goals rfl

theorem passBList_last_write (now : Int) :
    ∀ (pre : List Job) (jA : Job) (post : List Job) (cat : Catalog) (b : Nat)
      (d : DecStr),
      (pre ++ jA :: post).countP (endDue now) ≤ b →
      endDue now jA = true →
      jA.originalPrice = some d →
      (cat jA.variantId).isSome →
      (∀ a ∈ post, a.variantId ≠ jA.variantId) →
      (passBList now healthy cat b (pre ++ jA :: post)).cat jA.variantId
        = some ⟨d, jA.originalCompareAt⟩ := by
  intro pre
  induction pre with
  | nil =>
    intro jA post cat b d hcount hdue hp hs hpost
    have hm2 : jA.endTime ≤ now ∧ jA.status = Status.active := by
      simpa [endDue] using hdue
    have hb : 0 < b := by
      have h1 : 0 < (jA :: post).countP (endDue now) :=
        List.countP_pos_iff.2 ⟨jA, List.mem_cons_self jA post, hdue⟩
      rw [List.nil_append] at hcount
      omega
    obtain ⟨v, hv⟩ := Option.isSome_iff_exists.1 hs
    rw [List.nil_append,
      passBList_cons_sel now healthy cat b jA post ⟨hm2.1, hm2.2, hb⟩]
    show (passBList now healthy (passBJob cat (healthy jA) jA).cat
        (b - 1) post).cat jA.variantId = some ⟨d, jA.originalCompareAt⟩
    rw [passBList_cat_frame now healthy post
        (passBJob cat (healthy jA) jA).cat (b - 1) jA.variantId hpost]
    rw [show healthy jA = noFault from rfl, passBJob_healthy cat jA v hv]
    show (if jA.variantId = jA.variantId
        then some (applyWrite v (revertWriteReq jA)) else cat jA.variantId)
      = some ⟨d, jA.originalCompareAt⟩
    rw [if_pos rfl]
    cases hoc : jA.originalCompareAt with
    | none => simp [applyWrite, applyField, revertWriteReq, hp, hoc]
    | some c => simp [applyWrite, applyField, revertWriteReq, hp, hoc]
  | cons a pre2 ih =>
    intro jA post cat b d hcount hdue hp hs hpost
    have hmemj : jA ∈ (a :: pre2) ++ jA :: post := by simp
    by_cases hsel : a.endTime ≤ now ∧ a.status = Status.active ∧ 0 < b
    · have hadue : endDue now a = true := by
        simp [endDue, hsel.1, hsel.2.1]
      have hc2 : ((a :: pre2) ++ jA :: post).countP (endDue now)
          = (pre2 ++ jA :: post).countP (endDue now) + 1 := by
        simp [List.countP_cons, hadue]
      have hcount' : (pre2 ++ jA :: post).countP (endDue now) ≤ b - 1 := by
        omega
      have hs2 : (((passBJob cat (healthy a) a).cat) jA.variantId).isSome := by
        rw [passBJob_cat_isSome]
        exact hs
      rw [List.cons_append,
        passBList_cons_sel now healthy cat b a (pre2 ++ jA :: post) hsel]
      show (passBList now healthy (passBJob cat (healthy a) a).cat
          (b - 1) (pre2 ++ jA :: post)).cat jA.variantId
        = some ⟨d, jA.originalCompareAt⟩
      exact ih jA post (passBJob cat (healthy a) a).cat (b - 1) d
        hcount' hdue hp hs2 hpost
    · have hb : 0 < b := by
        have h1 : 0 < ((a :: pre2) ++ jA :: post).countP (endDue now) :=
          List.countP_pos_iff.2 ⟨jA, hmemj, hdue⟩
        omega
      have hadue : endDue now a = false := by
        cases hx : endDue now a with
        | false => rfl
        | true =>
          exfalso
          have hm2 : a.endTime ≤ now ∧ a.status = Status.active := by
            simpa [endDue] using hx
          exact hsel ⟨hm2.1, hm2.2, hb⟩
      have hc2 : ((a :: pre2) ++ jA :: post).countP (endDue now)
          = (pre2 ++ jA :: post).countP (endDue now) := by
        simp [List.countP_cons, hadue]
      have hcount' : (pre2 ++ jA :: post).countP (endDue now) ≤ b := by
        omega
      rw [List.cons_append,
        passBList_cons_nonsel now healthy cat b a (pre2 ++ jA :: post) hsel]
      show (passBList now healthy cat b (pre2 ++ jA :: post)).cat jA.variantId
        = some ⟨d, jA.originalCompareAt⟩
      exact ih jA post cat b d hcount' hdue hp hs hpost

/-- The catalog for the C10 counterexample: a single variant "w" priced
"100.00" with no compare-at price, shared by two jobs. -/
def catC10x : Catalog :=
  fun k => if k = "w" then some ⟨⟨false, 10000, 2⟩, none⟩ else none

/-- The C10 counterexample job: a pending 10% discount on variant "w" with
both startTime and endTime already due; the store holds two copies of
it. -/
def jobC10x : Job := ⟨"w", none, 10, none, 3, 4, Status.pending⟩

/-- C10 counterexample: two identical due pending jobs on the same variant
"w" (priced "100.00").  Both are within the 20-job batch limits and the
store is healthy, and indeed both end the tick completed, counted in both
`started` and `reverted` with no errors.  But the first job captures
originalPrice "100.00" while the second — reading the already-discounted
price — captures "90.00" and, reverting after the first, leaves the store
at "90.00" at tick end: the price-store entry does not match the first
job's captured original, so the claim's universally quantified restored-
price clause is false for stores with same-variant siblings. -/
theorem tick_shared_variant_counter :
    (tick 9 healthy catC10x [jobC10x, jobC10x]).log = ⟨2, 2, []⟩ ∧
    ((tick 9 healthy catC10x [jobC10x, jobC10x]).jobs.map
        (fun j => (j.originalPrice, j.status)))
      = [(some ⟨false, 10000, 2⟩, Status.completed),
         (some ⟨false, 9000, 2⟩, Status.completed)] ∧
    (tick 9 healthy catC10x [jobC10x, jobC10x]).cat "w"
      = some ⟨⟨false, 9000, 2⟩, some ⟨false, 10000, 2⟩⟩ ∧
    (⟨false, 9000, 2⟩ : DecStr) ≠ ⟨false, 10000, 2⟩ := by
  refine ⟨?_, ?_, ?_, by decide⟩
  · norm_num [tick, passAList, passBList, passAJob, passBJob, readVariant,
      writeVariant, noFault, healthy, catC10x, jobC10x, activateWriteReq,
      revertWriteReq, newPriceClamped, newPriceRaw, totalDiscountPercent,
      existingDiffPercent, anchorPrice, currentCompare, applyWrite, applyField,
      DecStr.val, toFixed2]
  · norm_num [tick, passAList, passBList, passAJob, passBJob, readVariant,
      writeVariant, noFault, healthy, catC10x, jobC10x, activateWriteReq,
      revertWriteReq, newPriceClamped, newPriceRaw, totalDiscountPercent,
      existingDiffPercent, anchorPrice, currentCompare, applyWrite, applyField,
      DecStr.val, toFixed2]
    simp only [Int.reduceToNat]
    norm_num
    simp only [Int.reduceToNat]
  · norm_num [tick, passAList, passBList, passAJob, passBJob, readVariant,
      writeVariant, noFault, healthy, catC10x, jobC10x, activateWriteReq,
      revertWriteReq, newPriceClamped, newPriceRaw, totalDiscountPercent,
      existingDiffPercent, anchorPrice, currentCompare, applyWrite, applyField,
      DecStr.val, toFixed2]
    simp only [Int.reduceToNat]
    norm_num
    simp only [Int.reduceToNat]

/-- C10 (amended): within one tick Pass B's selection runs only after Pass
A's loop has finished, over the records Pass A just saved.  With a healthy
price store holding every due variant and the due jobs within both 20-job
batch limits, every pending job whose start and end times are both due at
tick start ends the same tick completed, and the tick summary counts it
both as started and as reverted, with no errors recorded.  The claim's
remaining clause — at tick end the price-store entry is restored to the
job's captured original (the two-decimal reading of the pre-activation
price, with the compare-at price exactly as it was) — holds provided no
other stored job carries the same variantId: a same-variant sibling
activates or reverts against the shared price-store entry after the job
does, and the tick can end with that entry differing from the job's
captured original. -/
theorem tick_same_tick_revert (now : Int) (cat : Catalog) (jobs : List Job)
    (hA20 : jobs.countP (startDue now) ≤ 20)
    (hvar : ∀ a ∈ jobs, startDue now a = true → (cat a.variantId).isSome)
    (hB20 : (passAList now healthy cat 20 jobs).jobs.countP (endDue now) ≤ 20) :
    (tick now healthy cat jobs).log.started = jobs.countP (startDue now) ∧
    (tick now healthy cat jobs).log.reverted
      = (passAList now healthy cat 20 jobs).jobs.countP (endDue now) ∧
    (tick now healthy cat jobs).log.errors = [] ∧
    List.Forall₂ (fun a a' =>
        a.status = Status.pending → a.startTime ≤ now → a.endTime ≤ now →
          a'.status = Status.completed)
      jobs (tick now healthy cat jobs).jobs ∧
    (∀ j ∈ jobs, j.status = Status.pending → j.startTime ≤ now →
        j.endTime ≤ now →
      1 ≤ (tick now healthy cat jobs).log.started ∧
      1 ≤ (tick now healthy cat jobs).log.reverted) ∧
    (∀ (pre post : List Job) (j : Job) (v : Variant),
      jobs = pre ++ j :: post →
      j.status = Status.pending → j.startTime ≤ now → j.endTime ≤ now →
      cat j.variantId = some v →
      (∀ a ∈ pre, a.variantId ≠ j.variantId) →
      (∀ a ∈ post, a.variantId ≠ j.variantId) →
      (tick now healthy cat jobs).cat j.variantId
        = some ⟨toFixed2 v.price.val, v.compare_at_price⟩) := by
  obtain ⟨hca, hea, hra⟩ := passAList_healthy_full now jobs cat 20 hA20 hvar
  obtain ⟨hcb, heb, hrb⟩ := passBList_healthy_full now
    (passAList now healthy cat 20 jobs).jobs
    (passAList now healthy cat 20 jobs).cat 20 hB20
  refine ⟨hca, hcb, ?_, ?_, ?_, ?_⟩
  · show (passAList now healthy cat 20 jobs).errors
        ++ (passBList now healthy (passAList now healthy cat 20 jobs).cat 20
            (passAList now healthy cat 20 jobs).jobs).errors
      = []
    rw [hea, heb]
    rfl
  · show List.Forall₂ _ jobs
        (passBList now healthy (passAList now healthy cat 20 jobs).cat 20
          (passAList now healthy cat 20 jobs).jobs).jobs
    refine forall2_comp ?_ hra hrb
    intro a a' a'' h1 h2 hp hs he
    have hdue : startDue now a = true := by simp [startDue, hs, hp]
    have ha'act : a'.status = Status.active := h1.2.2.2 hdue
    have het : a'.endTime = a.endTime := h1.2.1
    have hdueB : endDue now a' = true := by
      simp [endDue, het, he, ha'act]
    rw [h2.2 hdueB]
  · intro j hj hp hs he
    have hdue : startDue now j = true := by simp [startDue, hs, hp]
    constructor
    · show 1 ≤ (passAList now healthy cat 20 jobs).count
      rw [hca]
      have h1 : 0 < jobs.countP (startDue now) :=
        List.countP_pos_iff.2 ⟨j, hj, hdue⟩
      omega
    · show 1 ≤ (passBList now healthy (passAList now healthy cat 20 jobs).cat
          20 (passAList now healthy cat 20 jobs).jobs).count
      rw [hcb]
      obtain ⟨j', hj', hrel⟩ := forall2_mem_left hra j hj
      have hdueB : endDue now j' = true := by
        have het : j'.endTime = j.endTime := hrel.2.1
        have hact : j'.status = Status.active := hrel.2.2.2 hdue
        simp [endDue, het, he, hact]
      have h1 : 0 < (passAList now healthy cat 20 jobs).jobs.countP
          (endDue now) :=
        List.countP_pos_iff.2 ⟨j', hj', hdueB⟩
      omega
  · intro pre post j v heq hp hs he hv hpre hpost
    subst heq
    have hdue : startDue now j = true := by simp [startDue, hs, hp]
    obtain ⟨preA, postA, hjobsA, hrelA⟩ :=
      passAList_at_job now pre j post cat 20 v hA20 hdue hv hpre
    have hdueB : endDue now ({ j with
        originalPrice := some (toFixed2 v.price.val),
        originalCompareAt := v.compare_at_price,
        status := Status.active } : Job) = true := by
      simp [endDue, he]
    have hcountB : (preA ++ ({ j with
        originalPrice := some (toFixed2 v.price.val),
        originalCompareAt := v.compare_at_price,
        status := Status.active } : Job) :: postA).countP (endDue now)
        ≤ 20 := by
      rw [← hjobsA]
      exact hB20
    have hsB : ((passAList now healthy cat 20 (pre ++ j :: post)).cat
        ({ j with
            originalPrice := some (toFixed2 v.price.val),
            originalCompareAt := v.compare_at_price,
            status := Status.active } : Job).variantId).isSome := by
      rw [passAList_cat_isSome]
      show (cat j.variantId).isSome = true
      rw [hv]
      rfl
    have hpostA : ∀ a ∈ postA, a.variantId ≠ ({ j with
        originalPrice := some (toFixed2 v.price.val),
        originalCompareAt := v.compare_at_price,
        status := Status.active } : Job).variantId := by
      intro a ha
      obtain ⟨a0, ha0, hvid⟩ := forall2_mem_right hrelA a ha
      rw [hvid]
      exact hpost a0 ha0
    have hfin := passBList_last_write now preA ({ j with
        originalPrice := some (toFixed2 v.price.val),
        originalCompareAt := v.compare_at_price,
        status := Status.active } : Job) postA
      (passAList now healthy cat 20 (pre ++ j :: post)).cat 20
      (toFixed2 v.price.val) hcountB hdueB rfl hsB hpostA
    show (passBList now healthy
        (passAList now healthy cat 20 (pre ++ j :: post)).cat 20
        (passAList now healthy cat 20 (pre ++ j :: post)).jobs).cat j.variantId
      = some ⟨toFixed2 v.price.val, v.compare_at_price⟩
    rw [hjobsA]
    exact hfin

/-- The catalog for the C10 witness: variant "w" priced "50.00" with a
compare-at of "60.00". -/
def catC10 : Catalog :=
  fun k => if k = "w" then some ⟨⟨false, 5000, 2⟩, some ⟨false, 6000, 2⟩⟩ else none

/-- The C10 witness job: pending, with both startTime and endTime already
due at the tick, alone in the store. -/
def jobC10 : Job := ⟨"w", none, 10, none, 3, 4, Status.pending⟩

/-- C10 (amended) witness: at `now = 9` a store holding only one pending
and already-expired job (so trivially within the batch limits, with no
same-variant sibling) is activated and reverted in the same tick — counted
in both `started` and `reverted`, with the price store restored to the
captured original. -/
theorem tick_same_tick_revert_witness :
    1 ≤ (tick 9 healthy catC10 [jobC10]).log.started ∧
    1 ≤ (tick 9 healthy catC10 [jobC10]).log.reverted ∧
    (tick 9 healthy catC10 [jobC10]).cat "w"
      = some ⟨toFixed2 ((⟨false, 5000, 2⟩ : DecStr).val), some ⟨false, 6000, 2⟩⟩ := by
  have hB20 : (passAList 9 healthy catC10 20 [jobC10]).jobs.countP (endDue 9)
      ≤ 20 := by
    have h1 : (passAList 9 healthy catC10 20 [jobC10]).jobs.countP (endDue 9)
        ≤ (passAList 9 healthy catC10 20 [jobC10]).jobs.length :=
      List.countP_le_length _
    have h2 : (passAList 9 healthy catC10 20 [jobC10]).jobs.length = 1 :=
      passAList_length 9 healthy [jobC10] catC10 20
    omega
  have h := tick_same_tick_revert 9 catC10 [jobC10] (by decide)
    (by
      intro a ha hd
      rw [List.mem_singleton] at ha
      subst ha
      decide)
    hB20
  refine ⟨?_, ?_, ?_⟩
  · exact (h.2.2.2.2.1 jobC10 (List.mem_singleton.2 rfl) rfl (by decide)
      (by decide)).1
  · exact (h.2.2.2.2.1 jobC10 (List.mem_singleton.2 rfl) rfl (by decide)
      (by decide)).2
  · exact h.2.2.2.2.2 [] [] jobC10 ⟨⟨false, 5000, 2⟩, some ⟨false, 6000, 2⟩⟩
      rfl rfl (by decide) (by decide) (by decide)
      (fun a ha => absurd ha (List.not_mem_nil a))
      (fun a ha => absurd ha (List.not_mem_nil a))

end BulkChange
